import Mathlib

/-!
# Verification of the ChessVariant bitboard engine

A shallow embedding of `board.py` (class `Board`) and `chessVar.py`
(class `ChessVar`).  Chess squares are bit indices `8*rank + file` in
arbitrary-precision naturals, exactly as the Python source uses
arbitrary-precision `int`s.  Where the source relies on Python's
two's-complement view of negative ints (the knight boundary mask),
the embedding uses `Int` with the corresponding two's-complement
bitwise operations.  Mutation of the `Board` object is modelled by
explicit state passing; a raised Python exception is modelled with
`Except Unit`.  The recursive ray casters `recc_left_shift` and
`recc_right_shift` recurse without a structural bound in the source;
here they take an explicit fuel argument, and all call sites pass
fuel 64, which strictly dominates the maximal possible recursion
depth on an 8x8 board (at most 9 nested calls for an unlimited ray).
-/

/-- `bb i` is the single-bit bitboard `1 << i`, i.e. the mask of square `i`. -/
def bb (i : Nat) : Nat := 1 <<< i

/-- Python's `a & ~b` for nonnegative ints: the bits of `a` that are not in
`b`.  The source uses this pattern throughout (`&= ~mask`, `& ~friendly`).
Rendered as `a ^^^ (a &&& b)` (removing from `a` its bits shared with `b`),
which the lemma `testBit_andNot` below shows to be exactly bitwise
a AND NOT b; this form reduces in the kernel, unlike `Nat.bitwise`. -/
def andNot (a b : Nat) : Nat := a ^^^ (a &&& b)

/-- Python's `~x` on an arbitrary-precision int (two's complement). -/
def int_not : Int → Int
  | Int.ofNat n => Int.negSucc n
  | Int.negSucc n => Int.ofNat n

/-- Python's `x & y` on arbitrary-precision ints (two's complement):
`Int.negSucc n` stands for the complement of the bit pattern of `n`. -/
def int_and : Int → Int → Int
  | Int.ofNat m, Int.ofNat n => Int.ofNat (m &&& n)
  | Int.ofNat m, Int.negSucc n => Int.ofNat (andNot m n)
  | Int.negSucc m, Int.ofNat n => Int.ofNat (andNot n m)
  | Int.negSucc m, Int.negSucc n => Int.negSucc (m ||| n)

/-- Python's `x | y` on arbitrary-precision ints (two's complement). -/
def int_or : Int → Int → Int
  | Int.ofNat m, Int.ofNat n => Int.ofNat (m ||| n)
  | Int.ofNat m, Int.negSucc n => Int.negSucc (andNot n m)
  | Int.negSucc m, Int.ofNat n => Int.negSucc (andNot m n)
  | Int.negSucc m, Int.negSucc n => Int.negSucc (m &&& n)

/-- The two player colours (the source uses the strings "White"/"Black"). -/
inductive Side where
  | White
  | Black
deriving DecidableEq, Repr

/-- The six piece-type names held in `Board._piece_names`
(`["Pawn", "Rook", "Knight", "Bishop", "Queen", "King"]`). -/
inductive PieceName where
  | Pawn
  | Rook
  | Knight
  | Bishop
  | Queen
  | King
deriving DecidableEq, Repr

/-- `Board._piece_names`. -/
def piece_names : List PieceName :=
  [PieceName.Pawn, PieceName.Rook, PieceName.Knight,
   PieceName.Bishop, PieceName.Queen, PieceName.King]

/-- The mutable state of the Python `Board` object: the current turn, the
two transient per-move indices, the six per-type bitboards of each colour
(lists indexed 0=Pawn, 1=Rook, 2=Knight, 3=Bishop, 4=Queen, 5=King) and
the three aggregate bitboards. -/
structure Board where
  current_turn : Side
  piece_moved_index : Option Nat
  piece_captured_index : Option Nat
  white_pieces_list : List Nat
  black_pieces_list : List Nat
  all_white_pieces_bb : Nat
  all_black_pieces_bb : Nat
  all_pieces_bb : Nat
deriving DecidableEq, Repr

/-- `Board.__init__` followed by `Board.setup_new_board`: the standard
starting position, White to move, both transient indices `None`. -/
def setup_new_board : Board :=
  { current_turn := Side.White
    piece_moved_index := none
    piece_captured_index := none
    white_pieces_list :=
      [0b11111111 <<< 8, 0b10000001, 0b01000010, 0b00100100, 0b00001000, 0b00010000]
    black_pieces_list :=
      [0b11111111 <<< (8 * 6), 0b10000001 <<< (8 * 7), 0b01000010 <<< (8 * 7),
       0b00100100 <<< (8 * 7), 0b00001000 <<< (8 * 7), 0b00010000 <<< (8 * 7)]
    all_white_pieces_bb := 0xffff
    all_black_pieces_bb := 0xffff000000000000
    all_pieces_bb := 0xffff00000000ffff }

/-- `Board.set_next_turn`. -/
def set_next_turn (b : Board) : Board :=
  if b.current_turn = Side.White then { b with current_turn := Side.Black }
  else { b with current_turn := Side.White }

/-- `Board.get_pieces`. -/
def get_pieces (b : Board) : List Nat × List Nat :=
  (b.white_pieces_list, b.black_pieces_list)

/-- `Board.get_piece_moved`.  Indexing `_piece_names` with `None` raises a
`TypeError` in Python, modelled by `.error`. -/
def get_piece_moved (b : Board) : Except Unit (PieceName × Board) :=
  match b.piece_moved_index with
  | none => Except.error ()
  | some k => Except.ok (piece_names.getD k PieceName.Pawn,
      { b with piece_moved_index := none })

/-- `Board.get_piece_captured`: read-once access to the captured-piece index. -/
def get_piece_captured (b : Board) : Option PieceName × Board :=
  match b.piece_captured_index with
  | none => (none, b)
  | some k => (some (piece_names.getD k PieceName.Pawn),
      { b with piece_captured_index := none })

/-- A Python value passed to `Board.convert_to_bitboard`: either a string
(list of characters) or any non-string value (the source only ever tests
`isinstance(location, str)`, so all non-strings behave alike). -/
inductive PyVal where
  | str (s : List Char)
  | nonstr
deriving DecidableEq

/-- Python's `int(c)` on a one-character string: the digit value for `'0'`-`'9'`,
otherwise a `ValueError` (modelled by `.error`). -/
def py_int (c : Char) : Except Unit Nat :=
  if c.isDigit then Except.ok (c.toNat - 48) else Except.error ()

/-- `Board.convert_to_bitboard`.  Returns `.ok none` where the source returns
`None`, `.ok (some mask)` for a valid label, and `.error ()` where the source
raises (which happens when the rank character is not a digit, since
`int(location[1])` runs before the range checks). -/
def convert_to_bitboard (location : PyVal) : Except Unit (Option Nat) :=
  match location with
  | PyVal.nonstr => Except.ok none
  | PyVal.str s =>
    if s.length ≠ 2 then Except.ok none
    else
      let file : Int := ((s.getD 0 ' ').toUpper.toNat : Int) - 65
      match py_int (s.getD 1 ' ') with
      | Except.error e => Except.error e
      | Except.ok d =>
        let rank : Int := (d : Int) - 1
        if file < 0 ∨ file > 7 then Except.ok none
        else if rank < 0 ∨ rank > 7 then Except.ok none
        else Except.ok (some (0b1 <<< (8 * rank.toNat + file.toNat)))

/-- `Board.recc_left_shift` (directions East to Northwest, `<<`).
`fuel` bounds the recursion depth; every call site passes 64, which the
geometry of the 8x8 board never exhausts. -/
def recc_left_shift (all_pieces : Nat) : Nat → Nat → Nat → Option Nat → Nat
  | 0, _, _, _ => 0
  | fuel + 1, location_bb, direction, move_limit_count =>
    if move_limit_count = some 0 then 0
    else
    let limit' := move_limit_count.map (fun c => c - 1)
    let blocked :=
      (direction == 8 && (location_bb &&& 0xff00000000000000 != 0 || location_bb &&& all_pieces != 0)) ||
      (direction == 1 && (location_bb &&& 0x8080808080808080 != 0 || location_bb &&& all_pieces != 0)) ||
      (direction == 7 && (location_bb &&& 0xff01010101010101 != 0 || location_bb &&& all_pieces != 0)) ||
      (direction == 9 && (location_bb &&& 0xff80808080808080 != 0 || location_bb &&& all_pieces != 0))
    if blocked then 0
    else
      let destination_bb := location_bb <<< direction
      destination_bb ||| recc_left_shift all_pieces fuel destination_bb direction limit'

/-- `Board.recc_right_shift` (directions West to Southeast, `>>`). -/
def recc_right_shift (all_pieces : Nat) : Nat → Nat → Nat → Option Nat → Nat
  | 0, _, _, _ => 0
  | fuel + 1, location_bb, direction, move_limit_count =>
    if move_limit_count = some 0 then 0
    else
    let limit' := move_limit_count.map (fun c => c - 1)
    let blocked :=
      (direction == 8 && (location_bb &&& 0xff != 0 || location_bb &&& all_pieces != 0)) ||
      (direction == 1 && (location_bb &&& 0x101010101010101 != 0 || location_bb &&& all_pieces != 0)) ||
      (direction == 7 && (location_bb &&& 0x80808080808080ff != 0 || location_bb &&& all_pieces != 0)) ||
      (direction == 9 && (location_bb &&& 0x1010101010101ff != 0 || location_bb &&& all_pieces != 0))
    if blocked then 0
    else
      let destination_bb := location_bb >>> direction
      destination_bb ||| recc_right_shift all_pieces fuel destination_bb direction limit'

/-- `Board.generate_moves`: accumulate ray moves over a list of signed
directions (`> 0` left shifts, `< 0` right shifts by the absolute value). -/
def generate_moves (all_pieces : Nat) (origin_bb : Nat) (directions : List Int)
    (move_limit : Option Nat) : Nat :=
  directions.foldl (fun moves_result_bb direction =>
    if direction > 0 then
      moves_result_bb ||| recc_left_shift all_pieces 64 origin_bb direction.toNat move_limit
    else if direction < 0 then
      moves_result_bb ||| recc_right_shift all_pieces 64 origin_bb direction.natAbs move_limit
    else moves_result_bb) 0

/-- `Board.generate_moves_pawn`. -/
def generate_moves_pawn (turn : Side) (all_pieces_bb : Nat) (move_from_bb : Nat) : Nat :=
  let forward_move_limit : Nat := 1
  let direction : Int := if turn = Side.White then 1 else -1
  let forward_move_limit :=
    if turn = Side.White then
      if move_from_bb &&& 0xff00 != 0 then 2 else forward_move_limit
    else
      if move_from_bb &&& 0xff000000000000 != 0 then 2 else forward_move_limit
  let valid_moves_bb :=
    generate_moves all_pieces_bb move_from_bb [8 * direction] (some forward_move_limit)
  let valid_moves_bb := andNot valid_moves_bb all_pieces_bb
  let diagonal_moves := all_pieces_bb
  let diagonal_moves := diagonal_moves &&&
    generate_moves all_pieces_bb move_from_bb [7 * direction, 9 * direction] (some 1)
  valid_moves_bb ||| diagonal_moves

/-- `Board.generate_moves_knight`.  The boundary mask is built with the
(negative) Python literal `-0xffff000000000000`, so it is modelled as an
`Int` and combined with two's-complement bitwise operations, exactly as
Python evaluates `moves_bb & ~boundary_bb` on arbitrary-precision ints. -/
def generate_moves_knight (move_from_bb : Nat) : Nat :=
  let north := move_from_bb &&& 0xffffffff00000000 != 0
  let boundary_bb : Int :=
    int_or 0x0 (if north then (-0xffff000000000000 : Int) else 0xffff)
  let right_bit_shifts := if north then 8 * 2 else 0
  let left_bit_shifts := if north then 0 else 8 * 2
  let west := move_from_bb &&& 0xf0f0f0f0f0f0f0f != 0
  let boundary_bb :=
    int_or boundary_bb (if west then 0x303030303030303 else 0xc0c0c0c0c0c0c0c0)
  let left_bit_shifts := left_bit_shifts + (if west then 2 else 0)
  let right_bit_shifts := right_bit_shifts + (if west then 0 else 2)
  let knight_bb := (move_from_bb >>> right_bit_shifts) <<< left_bit_shifts
  let moves_bb := ([1, 2] : List Nat).foldl (fun acc leg_one =>
    let leg_two := 3 - leg_one
    ([1, 8] : List Nat).foldl (fun acc2 multiplier =>
      let multiplier2 := 9 - multiplier
      let acc2 := acc2 ||| (knight_bb >>> (leg_one * multiplier)) >>> (leg_two * multiplier2)
      let acc2 := acc2 ||| (knight_bb >>> (leg_one * multiplier)) <<< (leg_two * multiplier2)
      let acc2 := acc2 ||| (knight_bb <<< (leg_one * multiplier)) >>> (leg_two * multiplier2)
      acc2 ||| (knight_bb <<< (leg_one * multiplier)) <<< (leg_two * multiplier2)) acc) 0b0
  let moves_bb := (int_and (Int.ofNat moves_bb) (int_not boundary_bb)).toNat
  (moves_bb <<< right_bit_shifts) >>> left_bit_shifts

/-- `Board.find_valid_moves`: identify the piece at `move_from_bb` for the
side to move (recording its type index in `_piece_moved_index`) and return
its legal-move bitboard.  The returned `Board` carries the possibly updated
`piece_moved_index`; nothing else changes. -/
def find_valid_moves (b : Board) (move_from_bb : Nat) : Board × Nat :=
  let pieces_to_search :=
    if b.current_turn = Side.White then b.white_pieces_list else b.black_pieces_list
  let friendly_pieces_bb :=
    if b.current_turn = Side.White then b.all_white_pieces_bb else b.all_black_pieces_bb
  if pieces_to_search.getD 0 0 &&& move_from_bb != 0 then
    ({ b with piece_moved_index := some 0 },
      andNot (generate_moves_pawn b.current_turn b.all_pieces_bb move_from_bb) friendly_pieces_bb)
  else if pieces_to_search.getD 1 0 &&& move_from_bb != 0 then
    ({ b with piece_moved_index := some 1 },
      andNot (generate_moves b.all_pieces_bb move_from_bb [8, -8, 1, -1] none) friendly_pieces_bb)
  else if pieces_to_search.getD 2 0 &&& move_from_bb != 0 then
    ({ b with piece_moved_index := some 2 },
      andNot (generate_moves_knight move_from_bb) friendly_pieces_bb)
  else if pieces_to_search.getD 3 0 &&& move_from_bb != 0 then
    ({ b with piece_moved_index := some 3 },
      andNot (generate_moves b.all_pieces_bb move_from_bb [7, 9, -7, -9] none) friendly_pieces_bb)
  else if pieces_to_search.getD 4 0 &&& move_from_bb != 0 then
    ({ b with piece_moved_index := some 4 },
      andNot (generate_moves b.all_pieces_bb move_from_bb [8, -8, 1, -1, 7, 9, -7, -9] none)
        friendly_pieces_bb)
  else if pieces_to_search.getD 5 0 &&& move_from_bb != 0 then
    ({ b with piece_moved_index := some 5 },
      andNot (generate_moves b.all_pieces_bb move_from_bb [8, -8, 1, -1, 7, 9, -7, -9] (some 1))
        friendly_pieces_bb)
  else (b, 0b0)

/-- One iteration of the capture-scan loop at the end of
`Board.update_bitboards` (`for index, piece_type_bb in enumerate(...)`). -/
def capture_step (move_to_bb : Nat) (b : Board) (index : Nat) : Board :=
  let opp :=
    if b.current_turn = Side.White then b.black_pieces_list else b.white_pieces_list
  if move_to_bb &&& opp.getD index 0 != 0 then
    let b := { b with piece_captured_index := some index }
    if b.current_turn = Side.White then
      { b with
        black_pieces_list :=
          b.black_pieces_list.set index (andNot (b.black_pieces_list.getD index 0) move_to_bb)
        all_black_pieces_bb := andNot b.all_black_pieces_bb move_to_bb }
    else
      { b with
        white_pieces_list :=
          b.white_pieces_list.set index (andNot (b.white_pieces_list.getD index 0) move_to_bb)
        all_white_pieces_bb := andNot b.all_white_pieces_bb move_to_bb }
  else b

/-- `Board.update_bitboards`.  `k` is the value of `self._piece_moved_index`,
which `execute_move` has established to be set before calling this. -/
def update_bitboards (b : Board) (k : Nat) (move_from_bb move_to_bb : Nat) : Board :=
  let b1 :=
    if b.current_turn = Side.White then
      { b with
        white_pieces_list := b.white_pieces_list.set k
          ((andNot (b.white_pieces_list.getD k 0) move_from_bb) ||| move_to_bb)
        all_white_pieces_bb := (andNot b.all_white_pieces_bb move_from_bb) ||| move_to_bb }
    else
      { b with
        black_pieces_list := b.black_pieces_list.set k
          ((andNot (b.black_pieces_list.getD k 0) move_from_bb) ||| move_to_bb)
        all_black_pieces_bb := (andNot b.all_black_pieces_bb move_from_bb) ||| move_to_bb }
  let b2 := { b1 with all_pieces_bb := (andNot b1.all_pieces_bb move_from_bb) ||| move_to_bb }
  let all_opponents_pieces_bb :=
    if b2.current_turn = Side.White then b2.all_black_pieces_bb else b2.all_white_pieces_bb
  if move_to_bb &&& all_opponents_pieces_bb != 0 then
    (List.range 6).foldl (capture_step move_to_bb) b2
  else b2

/-- Python's `str.upper()` on an ASCII square label. -/
def upper (s : List Char) : List Char := s.map Char.toUpper

/-- `Board.execute_move`: validate and perform one move.  Returns
`.ok (false, b)` for every rejected move, `.ok (true, b)` on success and
`.error ()` where the source would raise (a non-digit rank character). -/
def execute_move (b : Board) (move_from move_to : List Char) : Except Unit (Bool × Board) :=
  if upper move_from = upper move_to then Except.ok (false, b)
  else
    match convert_to_bitboard (PyVal.str move_from) with
    | Except.error e => Except.error e
    | Except.ok mfb =>
      match convert_to_bitboard (PyVal.str move_to) with
      | Except.error e => Except.error e
      | Except.ok mtb =>
        match mfb, mtb with
        | some move_from_bb, some move_to_bb =>
          let b1 := { b with all_pieces_bb := andNot b.all_pieces_bb move_from_bb }
          let p := find_valid_moves b1 move_from_bb
          let b2 := p.1
          let legal_moves := p.2
          match b2.piece_moved_index with
          | none =>
            Except.ok (false, { b2 with all_pieces_bb := b2.all_pieces_bb ||| move_from_bb })
          | some k =>
            if move_to_bb &&& legal_moves == 0 then
              Except.ok (false, { b2 with all_pieces_bb := b2.all_pieces_bb ||| move_from_bb })
            else
              Except.ok (true, update_bitboards b2 k move_from_bb move_to_bb)
        | _, _ => Except.ok (false, b)

/-- The three strings `ChessVar._game_state` can take. -/
inductive GameState where
  | UNFINISHED
  | WHITE_WON
  | BLACK_WON
deriving DecidableEq, Repr

/-- The state of the Python `ChessVar` object (the text display is pure
output and is not part of the model). -/
structure ChessVar where
  game_state : GameState
  board : Board
deriving DecidableEq, Repr

/-- `ChessVar.__init__`. -/
def ChessVar.new : ChessVar :=
  { game_state := GameState.UNFINISHED, board := setup_new_board }

/-- `ChessVar.get_game_state`: a side loses as soon as one of its six
piece-type bitboards is empty; the white list is scanned first. -/
def get_game_state (cv : ChessVar) : GameState :=
  if cv.board.white_pieces_list.any (fun piece_type => piece_type == 0) then
    GameState.BLACK_WON
  else if cv.board.black_pieces_list.any (fun piece_type => piece_type == 0) then
    GameState.WHITE_WON
  else GameState.UNFINISHED

/-- `ChessVar.make_move`: refuse to move once the game is over; otherwise
run `execute_move`, and on success recompute the game state, consume the
transient moved/captured indices (`update_display` reads both), and advance
the turn. -/
def make_move (cv : ChessVar) (move_from move_to : List Char) :
    Except Unit (Bool × ChessVar) :=
  if get_game_state cv ≠ GameState.UNFINISHED then Except.ok (false, cv)
  else
    match execute_move cv.board move_from move_to with
    | Except.error e => Except.error e
    | Except.ok (false, b1) => Except.ok (false, { cv with board := b1 })
    | Except.ok (true, b1) =>
      let gs := get_game_state { cv with board := b1 }
      match get_piece_moved b1 with
      | Except.error e => Except.error e
      | Except.ok (_, b2) =>
        let b3 := (get_piece_captured b2).2
        Except.ok (true, { game_state := gs, board := set_next_turn b3 })

/-! ## Specification-side definitions

The following definitions are written from the specification's words (not
from the source) and exist to be compared with the source-derived
definitions above: `ray_spec` renders "ray-cast from origin one step at a
time; a ray step terminates (excludes the landing square) when the step
would cross the board edge in that direction, and terminates (includes the
landing square, since it may be a capture) when the destination square is
already occupied"; `knight_spec` renders "the set of on-board squares at an
L-shaped offset from the origin"; `pawn_spec` renders the pawn paragraph of
section 4.2. -/

/-- The eight sliding directions. -/
inductive Dir where
  | N
  | S
  | E
  | W
  | NE
  | NW
  | SE
  | SW
deriving DecidableEq, Repr

/-- Spec side: stepping from square `(f, r)` in direction `d` would cross
the board edge. -/
def atEdge : Dir → Nat → Nat → Bool
  | Dir.N, _, r => r == 7
  | Dir.S, _, r => r == 0
  | Dir.E, f, _ => f == 7
  | Dir.W, f, _ => f == 0
  | Dir.NE, f, r => r == 7 || f == 7
  | Dir.NW, f, r => r == 7 || f == 0
  | Dir.SE, f, r => r == 0 || f == 7
  | Dir.SW, f, r => r == 0 || f == 0

/-- Spec side: the square one step from `(f, r)` in direction `d`
(only used when `atEdge` is false, so the subtractions cannot truncate). -/
def stepSq : Dir → Nat × Nat → Nat × Nat
  | Dir.N, (f, r) => (f, r + 1)
  | Dir.S, (f, r) => (f, r - 1)
  | Dir.E, (f, r) => (f + 1, r)
  | Dir.W, (f, r) => (f - 1, r)
  | Dir.NE, (f, r) => (f + 1, r + 1)
  | Dir.NW, (f, r) => (f - 1, r + 1)
  | Dir.SE, (f, r) => (f + 1, r - 1)
  | Dir.SW, (f, r) => (f - 1, r - 1)

/-- Spec side: the ray from `(f, r)` in direction `d` over occupancy `occ`,
built by stepping one square at a time: stop (excluding the landing square)
before a step that would cross the board edge, and stop (including the
landing square) at the first already-occupied square.  Rays have at most 7
squares, so fuel 64 is never exhausted. -/
def ray_spec (occ : Nat) (d : Dir) : Nat → Nat → Nat → Nat
  | 0, _, _ => 0
  | fuel + 1, f, r =>
    if atEdge d f r then 0
    else
      let p := stepSq d (f, r)
      let j := 8 * p.2 + p.1
      if occ.testBit j then bb j
      else bb j ||| ray_spec occ d fuel p.1 p.2

/-- How `generate_moves` realises each compass direction: `true` selects
`recc_left_shift` (a `<<` shift), `false` selects `recc_right_shift`
(a `>>` shift); the `Nat` is the shift amount. -/
def dirShift : Dir → Bool × Nat
  | Dir.N => (true, 8)
  | Dir.E => (true, 1)
  | Dir.NW => (true, 7)
  | Dir.NE => (true, 9)
  | Dir.S => (false, 8)
  | Dir.W => (false, 1)
  | Dir.SE => (false, 7)
  | Dir.SW => (false, 9)

/-- The ray the source computes in direction `d` from `origin_bb` with no
move limit: `recc_left_shift` for the increasing directions and
`recc_right_shift` for the decreasing ones, as dispatched by
`generate_moves`. -/
def ray_code (occ : Nat) (d : Dir) (origin_bb : Nat) : Nat :=
  if (dirShift d).1 then recc_left_shift occ 64 origin_bb (dirShift d).2 none
  else recc_right_shift occ 64 origin_bb (dirShift d).2 none

/-- Spec side: squares `i` and `j` are a knight's L-jump apart
(file and rank distances forming the set `{1, 2}`). -/
def isKnightJump (i j : Nat) : Bool :=
  let df := ((i % 8 : Int) - (j % 8 : Int)).natAbs
  let dr := ((i / 8 : Int) - (j / 8 : Int)).natAbs
  (df == 1 && dr == 2) || (df == 2 && dr == 1)

/-- Spec side: the bitboard of on-board squares an L-shaped offset away
from origin square `i`. -/
def knight_spec (i : Nat) : Nat :=
  ((List.range 64).filter (fun j => isKnightJump i j)).foldl (fun a j => a ||| bb j) 0

/-- Spec side: the pawn destination squares of section 4.2, for a pawn of
side `side` on square `(f, r)`, with `fr` the mover's occupancy and `en`
the opponent's occupancy: one step forward if unoccupied; two steps forward
if on the starting rank and both forward squares are unoccupied; a forward
diagonal only if it holds an opposing piece.  Forward is rank `+1` for
White and rank `-1` for Black. -/
def pawn_spec (side : Side) (fr en : Nat) (f r : Nat) : Nat :=
  let occ := fr ||| en
  let fwdOk : Bool := if side = Side.White then r + 1 ≤ 7 else 1 ≤ r
  let r1 := if side = Side.White then r + 1 else r - 1
  let r2 := if side = Side.White then r + 2 else r - 2
  let startRank : Nat := if side = Side.White then 1 else 6
  let one := if fwdOk && !occ.testBit (8 * r1 + f) then bb (8 * r1 + f) else 0
  let two :=
    if r == startRank && !occ.testBit (8 * r1 + f) && !occ.testBit (8 * r2 + f) then
      bb (8 * r2 + f)
    else 0
  let diagL := if fwdOk && 1 ≤ f && en.testBit (8 * r1 + (f - 1)) then bb (8 * r1 + (f - 1)) else 0
  let diagR := if fwdOk && f + 1 ≤ 7 && en.testBit (8 * r1 + (f + 1)) then bb (8 * r1 + (f + 1)) else 0
  one ||| two ||| diagL ||| diagR

/-- The number of board squares set in a bitboard (bits 0 to 63). -/
def popcount64 (n : Nat) : Nat := ((List.range 64).filter n.testBit).length

/-! ## Basic bitboard lemmas -/

lemma bb_eq_two_pow (i : Nat) : bb i = 2 ^ i := by
  simp [bb, Nat.shiftLeft_eq]

lemma testBit_bb (i j : Nat) : (bb i).testBit j = decide (i = j) := by
  rw [bb_eq_two_pow]; exact Nat.testBit_two_pow

lemma two_pow_ne_zero (i : Nat) : (2 : Nat) ^ i ≠ 0 :=
  (Nat.pow_pos (by norm_num)).ne'

lemma bb_and_ne (i m : Nat) : ((bb i &&& m) != 0) = m.testBit i := by
  rw [bb_eq_two_pow, Nat.two_pow_and]
  cases h : m.testBit i
  · simp
  · simp [bne_iff_ne, two_pow_ne_zero i]

lemma and_bb_ne (m i : Nat) : ((m &&& bb i) != 0) = m.testBit i := by
  rw [bb_eq_two_pow, Nat.and_two_pow]
  cases h : m.testBit i
  · simp
  · simp [bne_iff_ne, two_pow_ne_zero i]

lemma testBit_andNot (a b j : Nat) : (andNot a b).testBit j = (a.testBit j && !b.testBit j) := by
  rw [andNot, Nat.testBit_xor, Nat.testBit_land]
  cases a.testBit j <;> cases b.testBit j <;> rfl

lemma bb_shiftLeft (i a : Nat) : bb i <<< a = bb (i + a) := by
  rw [bb_eq_two_pow, bb_eq_two_pow, Nat.shiftLeft_eq, pow_add]

lemma bb_shiftRight (i a : Nat) (h : a ≤ i) : bb i >>> a = bb (i - a) := by
  rw [bb_eq_two_pow, bb_eq_two_pow, Nat.shiftRight_eq_div_pow, Nat.pow_div h (by norm_num)]

lemma bb_ne_zero (i : Nat) : bb i ≠ 0 := by
  rw [bb_eq_two_pow]; exact two_pow_ne_zero i

/-! ## Geometry of the boundary masks

Each hexadecimal boundary mask used by the ray casters is characterised on
board squares `8*r + f`. -/

lemma mask_rank8 : ∀ r < 8, ∀ f < 8,
    (0xff00000000000000 : Nat).testBit (8 * r + f) = decide (r = 7) := by decide

lemma mask_fileH : ∀ r < 8, ∀ f < 8,
    (0x8080808080808080 : Nat).testBit (8 * r + f) = decide (f = 7) := by decide

lemma mask_rank8_fileA : ∀ r < 8, ∀ f < 8,
    (0xff01010101010101 : Nat).testBit (8 * r + f) = (decide (r = 7) || decide (f = 0)) := by decide

lemma mask_rank8_fileH : ∀ r < 8, ∀ f < 8,
    (0xff80808080808080 : Nat).testBit (8 * r + f) = (decide (r = 7) || decide (f = 7)) := by decide

lemma mask_rank1 : ∀ r < 8, ∀ f < 8,
    (0xff : Nat).testBit (8 * r + f) = decide (r = 0) := by decide

lemma mask_fileA : ∀ r < 8, ∀ f < 8,
    (0x101010101010101 : Nat).testBit (8 * r + f) = decide (f = 0) := by decide

lemma mask_rank1_fileH : ∀ r < 8, ∀ f < 8,
    (0x80808080808080ff : Nat).testBit (8 * r + f) = (decide (r = 0) || decide (f = 7)) := by decide

lemma mask_rank1_fileA : ∀ r < 8, ∀ f < 8,
    (0x1010101010101ff : Nat).testBit (8 * r + f) = (decide (r = 0) || decide (f = 0)) := by decide

lemma mask_rank2 : ∀ r < 8, ∀ f < 8,
    (0xff00 : Nat).testBit (8 * r + f) = decide (r = 1) := by decide

lemma mask_rank7 : ∀ r < 8, ∀ f < 8,
    (0xff000000000000 : Nat).testBit (8 * r + f) = decide (r = 6) := by decide

/-! ## Ray casting agrees with the specification's stepping description -/

lemma recc_left_stopped (occ i dir : Nat)
    (hd : dir = 8 ∨ dir = 1 ∨ dir = 7 ∨ dir = 9) (h : occ.testBit i = true) :
    ∀ fuel, recc_left_shift occ fuel (bb i) dir none = 0 := by
  intro fuel
  cases fuel with
  | zero => rfl
  | succ n => rcases hd with rfl | rfl | rfl | rfl <;> simp [recc_left_shift, bb_and_ne, h]

lemma recc_right_stopped (occ i dir : Nat)
    (hd : dir = 8 ∨ dir = 1 ∨ dir = 7 ∨ dir = 9) (h : occ.testBit i = true) :
    ∀ fuel, recc_right_shift occ fuel (bb i) dir none = 0 := by
  intro fuel
  cases fuel with
  | zero => rfl
  | succ n => rcases hd with rfl | rfl | rfl | rfl <;> simp [recc_right_shift, bb_and_ne, h]

lemma ray_eq_N (occ : Nat) : ∀ fuel f r, f < 8 → r < 8 → occ.testBit (8 * r + f) = false →
    recc_left_shift occ fuel (bb (8 * r + f)) 8 none = ray_spec occ Dir.N fuel f r := by
  intro fuel
  induction fuel with
  | zero => intro f r _ _ _; rfl
  | succ n ih =>
    intro f r hf hr h0
    rw [recc_left_shift, ray_spec]
    simp only [bb_and_ne, mask_rank8 r hr f hf, h0, atEdge, stepSq, Option.map_none',
      show ((8 : Nat) == 8) = true from rfl, show ((8 : Nat) == 1) = false from rfl,
      show ((8 : Nat) == 7) = false from rfl, show ((8 : Nat) == 9) = false from rfl,
      Bool.false_and, Bool.true_and, Bool.or_false, Bool.false_or, Bool.and_false,
      reduceCtorEq, if_false]
    by_cases hr7 : r = 7
    · simp [hr7]
    · have hstep : 8 * r + f + 8 = 8 * (r + 1) + f := by ring
      simp only [hr7, decide_False, Bool.false_eq_true, if_false, bb_shiftLeft, hstep,
        show (r == 7) = decide (r = 7) from rfl]
      by_cases hocc : occ.testBit (8 * (r + 1) + f) = true
      · simp only [hocc, if_true]
        rw [recc_left_stopped occ _ 8 (by omega) hocc n]
        simp
      · have hocc' : occ.testBit (8 * (r + 1) + f) = false := by
          revert hocc; cases occ.testBit (8 * (r + 1) + f) <;> simp
        simp only [hocc', if_false, Bool.false_eq_true]
        rw [ih f (r + 1) hf (by omega) hocc']

lemma ray_eq_E (occ : Nat) : ∀ fuel f r, f < 8 → r < 8 → occ.testBit (8 * r + f) = false →
    recc_left_shift occ fuel (bb (8 * r + f)) 1 none = ray_spec occ Dir.E fuel f r := by
  intro fuel
  induction fuel with
  | zero => intro f r _ _ _; rfl
  | succ n ih =>
    intro f r hf hr h0
    rw [recc_left_shift, ray_spec]
    simp only [bb_and_ne, mask_fileH r hr f hf, h0, atEdge, stepSq, Option.map_none',
      show ((1 : Nat) == 8) = false from rfl, show ((1 : Nat) == 1) = true from rfl,
      show ((1 : Nat) == 7) = false from rfl, show ((1 : Nat) == 9) = false from rfl,
      Bool.false_and, Bool.true_and, Bool.or_false, Bool.false_or, Bool.and_false,
      reduceCtorEq, if_false]
    by_cases hf7 : f = 7
    · simp [hf7]
    · have hstep : 8 * r + f + 1 = 8 * r + (f + 1) := by ring
      simp only [hf7, decide_False, Bool.false_eq_true, if_false, bb_shiftLeft, hstep,
        show (f == 7) = decide (f = 7) from rfl]
      by_cases hocc : occ.testBit (8 * r + (f + 1)) = true
      · simp only [hocc, if_true]
        rw [recc_left_stopped occ _ 1 (by omega) hocc n]
        simp
      · have hocc' : occ.testBit (8 * r + (f + 1)) = false := by
          revert hocc; cases occ.testBit (8 * r + (f + 1)) <;> simp
        simp only [hocc', if_false, Bool.false_eq_true]
        rw [ih (f + 1) r (by omega) hr hocc']

lemma ray_eq_NW (occ : Nat) : ∀ fuel f r, f < 8 → r < 8 → occ.testBit (8 * r + f) = false →
    recc_left_shift occ fuel (bb (8 * r + f)) 7 none = ray_spec occ Dir.NW fuel f r := by
  intro fuel
  induction fuel with
  | zero => intro f r _ _ _; rfl
  | succ n ih =>
    intro f r hf hr h0
    rw [recc_left_shift, ray_spec]
    simp only [bb_and_ne, mask_rank8_fileA r hr f hf, h0, atEdge, stepSq, Option.map_none',
      show ((7 : Nat) == 8) = false from rfl, show ((7 : Nat) == 1) = false from rfl,
      show ((7 : Nat) == 7) = true from rfl, show ((7 : Nat) == 9) = false from rfl,
      Bool.false_and, Bool.true_and, Bool.or_false, Bool.false_or, Bool.and_false,
      reduceCtorEq, if_false]
    by_cases hedge : r = 7 ∨ f = 0
    · rcases hedge with rfl | rfl <;> simp
    · push_neg at hedge
      obtain ⟨hr7, hf0⟩ := hedge
      have hstep : 8 * r + f + 7 = 8 * (r + 1) + (f - 1) := by omega
      simp only [hr7, hf0, decide_False, Bool.or_false, Bool.false_eq_true, if_false,
        bb_shiftLeft, hstep, show (r == 7) = decide (r = 7) from rfl,
        show (f == 0) = decide (f = 0) from rfl]
      by_cases hocc : occ.testBit (8 * (r + 1) + (f - 1)) = true
      · simp only [hocc, if_true]
        rw [recc_left_stopped occ _ 7 (by omega) hocc n]
        simp
      · have hocc' : occ.testBit (8 * (r + 1) + (f - 1)) = false := by
          revert hocc; cases occ.testBit (8 * (r + 1) + (f - 1)) <;> simp
        simp only [hocc', if_false, Bool.false_eq_true]
        rw [ih (f - 1) (r + 1) (by omega) (by omega) hocc']

lemma ray_eq_NE (occ : Nat) : ∀ fuel f r, f < 8 → r < 8 → occ.testBit (8 * r + f) = false →
    recc_left_shift occ fuel (bb (8 * r + f)) 9 none = ray_spec occ Dir.NE fuel f r := by
  intro fuel
  induction fuel with
  | zero => intro f r _ _ _; rfl
  | succ n ih =>
    intro f r hf hr h0
    rw [recc_left_shift, ray_spec]
    simp only [bb_and_ne, mask_rank8_fileH r hr f hf, h0, atEdge, stepSq, Option.map_none',
      show ((9 : Nat) == 8) = false from rfl, show ((9 : Nat) == 1) = false from rfl,
      show ((9 : Nat) == 7) = false from rfl, show ((9 : Nat) == 9) = true from rfl,
      Bool.false_and, Bool.true_and, Bool.or_false, Bool.false_or, Bool.and_false,
      reduceCtorEq, if_false]
    by_cases hedge : r = 7 ∨ f = 7
    · rcases hedge with rfl | rfl <;> simp
    · push_neg at hedge
      obtain ⟨hr7, hf7⟩ := hedge
      have hstep : 8 * r + f + 9 = 8 * (r + 1) + (f + 1) := by ring
      simp only [hr7, hf7, decide_False, Bool.or_false, Bool.false_eq_true, if_false,
        bb_shiftLeft, hstep, show (r == 7) = decide (r = 7) from rfl,
        show (f == 7) = decide (f = 7) from rfl]
      by_cases hocc : occ.testBit (8 * (r + 1) + (f + 1)) = true
      · simp only [hocc, if_true]
        rw [recc_left_stopped occ _ 9 (by omega) hocc n]
        simp
      · have hocc' : occ.testBit (8 * (r + 1) + (f + 1)) = false := by
          revert hocc; cases occ.testBit (8 * (r + 1) + (f + 1)) <;> simp
        simp only [hocc', if_false, Bool.false_eq_true]
        rw [ih (f + 1) (r + 1) (by omega) (by omega) hocc']

lemma ray_eq_S (occ : Nat) : ∀ fuel f r, f < 8 → r < 8 → occ.testBit (8 * r + f) = false →
    recc_right_shift occ fuel (bb (8 * r + f)) 8 none = ray_spec occ Dir.S fuel f r := by
  intro fuel
  induction fuel with
  | zero => intro f r _ _ _; rfl
  | succ n ih =>
    intro f r hf hr h0
    rw [recc_right_shift, ray_spec]
    simp only [bb_and_ne, mask_rank1 r hr f hf, h0, atEdge, stepSq, Option.map_none',
      show ((8 : Nat) == 8) = true from rfl, show ((8 : Nat) == 1) = false from rfl,
      show ((8 : Nat) == 7) = false from rfl, show ((8 : Nat) == 9) = false from rfl,
      Bool.false_and, Bool.true_and, Bool.or_false, Bool.false_or, Bool.and_false,
      reduceCtorEq, if_false]
    by_cases hr0 : r = 0
    · simp [hr0]
    · rw [bb_shiftRight _ _ (by omega)]
      have hstep : 8 * r + f - 8 = 8 * (r - 1) + f := by omega
      simp only [hr0, decide_False, Bool.false_eq_true, if_false, hstep,
        show (r == 0) = decide (r = 0) from rfl]
      by_cases hocc : occ.testBit (8 * (r - 1) + f) = true
      · simp only [hocc, if_true]
        rw [recc_right_stopped occ _ 8 (by omega) hocc n]
        simp
      · have hocc' : occ.testBit (8 * (r - 1) + f) = false := by
          revert hocc; cases occ.testBit (8 * (r - 1) + f) <;> simp
        simp only [hocc', if_false, Bool.false_eq_true]
        rw [ih f (r - 1) hf (by omega) hocc']

lemma ray_eq_W (occ : Nat) : ∀ fuel f r, f < 8 → r < 8 → occ.testBit (8 * r + f) = false →
    recc_right_shift occ fuel (bb (8 * r + f)) 1 none = ray_spec occ Dir.W fuel f r := by
  intro fuel
  induction fuel with
  | zero => intro f r _ _ _; rfl
  | succ n ih =>
    intro f r hf hr h0
    rw [recc_right_shift, ray_spec]
    simp only [bb_and_ne, mask_fileA r hr f hf, h0, atEdge, stepSq, Option.map_none',
      show ((1 : Nat) == 8) = false from rfl, show ((1 : Nat) == 1) = true from rfl,
      show ((1 : Nat) == 7) = false from rfl, show ((1 : Nat) == 9) = false from rfl,
      Bool.false_and, Bool.true_and, Bool.or_false, Bool.false_or, Bool.and_false,
      reduceCtorEq, if_false]
    by_cases hf0 : f = 0
    · simp [hf0]
    · rw [bb_shiftRight _ _ (by omega)]
      have hstep : 8 * r + f - 1 = 8 * r + (f - 1) := by omega
      simp only [hf0, decide_False, Bool.false_eq_true, if_false, hstep,
        show (f == 0) = decide (f = 0) from rfl]
      by_cases hocc : occ.testBit (8 * r + (f - 1)) = true
      · simp only [hocc, if_true]
        rw [recc_right_stopped occ _ 1 (by omega) hocc n]
        simp
      · have hocc' : occ.testBit (8 * r + (f - 1)) = false := by
          revert hocc; cases occ.testBit (8 * r + (f - 1)) <;> simp
        simp only [hocc', if_false, Bool.false_eq_true]
        rw [ih (f - 1) r (by omega) hr hocc']

lemma ray_eq_SE (occ : Nat) : ∀ fuel f r, f < 8 → r < 8 → occ.testBit (8 * r + f) = false →
    recc_right_shift occ fuel (bb (8 * r + f)) 7 none = ray_spec occ Dir.SE fuel f r := by
  intro fuel
  induction fuel with
  | zero => intro f r _ _ _; rfl
  | succ n ih =>
    intro f r hf hr h0
    rw [recc_right_shift, ray_spec]
    simp only [bb_and_ne, mask_rank1_fileH r hr f hf, h0, atEdge, stepSq, Option.map_none',
      show ((7 : Nat) == 8) = false from rfl, show ((7 : Nat) == 1) = false from rfl,
      show ((7 : Nat) == 7) = true from rfl, show ((7 : Nat) == 9) = false from rfl,
      Bool.false_and, Bool.true_and, Bool.or_false, Bool.false_or, Bool.and_false,
      reduceCtorEq, if_false]
    by_cases hedge : r = 0 ∨ f = 7
    · rcases hedge with rfl | rfl <;> simp
    · push_neg at hedge
      obtain ⟨hr0, hf7⟩ := hedge
      rw [bb_shiftRight _ _ (by omega)]
      have hstep : 8 * r + f - 7 = 8 * (r - 1) + (f + 1) := by omega
      simp only [hr0, hf7, decide_False, Bool.or_false, Bool.false_eq_true, if_false, hstep,
        show (r == 0) = decide (r = 0) from rfl, show (f == 7) = decide (f = 7) from rfl]
      by_cases hocc : occ.testBit (8 * (r - 1) + (f + 1)) = true
      · simp only [hocc, if_true]
        rw [recc_right_stopped occ _ 7 (by omega) hocc n]
        simp
      · have hocc' : occ.testBit (8 * (r - 1) + (f + 1)) = false := by
          revert hocc; cases occ.testBit (8 * (r - 1) + (f + 1)) <;> simp
        simp only [hocc', if_false, Bool.false_eq_true]
        rw [ih (f + 1) (r - 1) (by omega) (by omega) hocc']

lemma ray_eq_SW (occ : Nat) : ∀ fuel f r, f < 8 → r < 8 → occ.testBit (8 * r + f) = false →
    recc_right_shift occ fuel (bb (8 * r + f)) 9 none = ray_spec occ Dir.SW fuel f r := by
  intro fuel
  induction fuel with
  | zero => intro f r _ _ _; rfl
  | succ n ih =>
    intro f r hf hr h0
    rw [recc_right_shift, ray_spec]
    simp only [bb_and_ne, mask_rank1_fileA r hr f hf, h0, atEdge, stepSq, Option.map_none',
      show ((9 : Nat) == 8) = false from rfl, show ((9 : Nat) == 1) = false from rfl,
      show ((9 : Nat) == 7) = false from rfl, show ((9 : Nat) == 9) = true from rfl,
      Bool.false_and, Bool.true_and, Bool.or_false, Bool.false_or, Bool.and_false,
      reduceCtorEq, if_false]
    by_cases hedge : r = 0 ∨ f = 0
    · rcases hedge with rfl | rfl <;> simp
    · push_neg at hedge
      obtain ⟨hr0, hf0⟩ := hedge
      rw [bb_shiftRight _ _ (by omega)]
      have hstep : 8 * r + f - 9 = 8 * (r - 1) + (f - 1) := by omega
      simp only [hr0, hf0, decide_False, Bool.or_false, Bool.false_eq_true, if_false, hstep,
        show (r == 0) = decide (r = 0) from rfl, show (f == 0) = decide (f = 0) from rfl]
      by_cases hocc : occ.testBit (8 * (r - 1) + (f - 1)) = true
      · simp only [hocc, if_true]
        rw [recc_right_stopped occ _ 9 (by omega) hocc n]
        simp
      · have hocc' : occ.testBit (8 * (r - 1) + (f - 1)) = false := by
          revert hocc; cases occ.testBit (8 * (r - 1) + (f - 1)) <;> simp
        simp only [hocc', if_false, Bool.false_eq_true]
        rw [ih (f - 1) (r - 1) (by omega) (by omega) hocc']

/-- A White Rook alone at D4 (square 27).  `find_valid_moves` is invoked
exactly as `execute_move` invokes it: with the origin bit first removed
from the all-pieces mask. -/
def rook_d4_board : Board :=
  { current_turn := Side.White
    piece_moved_index := none
    piece_captured_index := none
    white_pieces_list := [0, bb 27, 0, 0, 0, 0]
    black_pieces_list := [0, 0, 0, 0, 0, 0]
    all_white_pieces_bb := bb 27
    all_black_pieces_bb := 0
    all_pieces_bb := bb 27 }

/-- The legal-destination bitboard of the lone Rook at D4. -/
def rook_d4_moves : Nat :=
  (find_valid_moves
    { rook_d4_board with all_pieces_bb := andNot rook_d4_board.all_pieces_bb (bb 27) }
    (bb 27)).2

/-- C1: for every single-bit on-board origin, every sliding direction and
every board occupancy (the all-pieces mask as the ray casters receive it,
i.e. with the origin bit removed by `execute_move`), the ray computed by
`recc_left_shift`/`recc_right_shift` is exactly the spec's square-by-square
stepping ray `ray_spec`: stepping stops (landing square excluded) before a
step that would cross the board edge and stops (landing square included) at
the first already-occupied square, and the ray contains nothing beyond the
edge or past the first occupied square.  In particular a Rook at D4 on an
otherwise empty board has exactly 14 legal destinations. -/
theorem C1_ray_casting :
    (∀ i < 64, ∀ d : Dir, ∀ occ : Nat, occ.testBit i = false →
      ray_code occ d (bb i) = ray_spec occ d 64 (i % 8) (i / 8)) ∧
    popcount64 rook_d4_moves = 14 := by
  constructor
  · intro i hi d occ h0
    obtain ⟨f, r, hf, hr, rfl⟩ : ∃ f r, f < 8 ∧ r < 8 ∧ 8 * r + f = i :=
      ⟨i % 8, i / 8, Nat.mod_lt _ (by norm_num), by omega, Nat.div_add_mod i 8⟩
    have hm : (8 * r + f) % 8 = f := by omega
    have hdv : (8 * r + f) / 8 = r := by omega
    rw [hm, hdv]
    cases d
    case N => simpa [ray_code, dirShift] using ray_eq_N occ 64 f r hf hr h0
    case S => simpa [ray_code, dirShift] using ray_eq_S occ 64 f r hf hr h0
    case E => simpa [ray_code, dirShift] using ray_eq_E occ 64 f r hf hr h0
    case W => simpa [ray_code, dirShift] using ray_eq_W occ 64 f r hf hr h0
    case NE => simpa [ray_code, dirShift] using ray_eq_NE occ 64 f r hf hr h0
    case NW => simpa [ray_code, dirShift] using ray_eq_NW occ 64 f r hf hr h0
    case SE => simpa [ray_code, dirShift] using ray_eq_SE occ 64 f r hf hr h0
    case SW => simpa [ray_code, dirShift] using ray_eq_SW occ 64 f r hf hr h0
  · decide

/-- Witness for C1: the hypotheses hold at origin D4 (square 27), direction
North, the empty occupancy, and the conclusion evaluates there. -/
theorem C1_ray_casting_witness :
    (27 < 64 ∧ Nat.testBit 0 27 = false) ∧
    ray_code 0 Dir.N (bb 27) = ray_spec 0 Dir.N 64 (27 % 8) (27 / 8) :=
  ⟨⟨by decide, by decide⟩, C1_ray_casting.1 27 (by decide) Dir.N 0 (by decide)⟩

/-- The legal-destination bitboard `execute_move` computes for the piece on
square `i` of board `b`: the origin bit is removed from the all-pieces mask
(line 164 of the source) before `find_valid_moves` runs. -/
def legal_moves_from (b : Board) (i : Nat) : Nat :=
  (find_valid_moves { b with all_pieces_bb := andNot b.all_pieces_bb (bb i) } (bb i)).2

/-- A White Knight alone at A1 (square 0). -/
def knight_a1_board : Board :=
  { current_turn := Side.White
    piece_moved_index := none
    piece_captured_index := none
    white_pieces_list := [0, 0, bb 0, 0, 0, 0]
    black_pieces_list := [0, 0, 0, 0, 0, 0]
    all_white_pieces_bb := bb 0
    all_black_pieces_bb := 0
    all_pieces_bb := bb 0 }

/-- A White Knight alone at D4 (square 27). -/
def knight_d4_board : Board :=
  { current_turn := Side.White
    piece_moved_index := none
    piece_captured_index := none
    white_pieces_list := [0, 0, bb 27, 0, 0, 0]
    black_pieces_list := [0, 0, 0, 0, 0, 0]
    all_white_pieces_bb := bb 27
    all_black_pieces_bb := 0
    all_pieces_bb := bb 27 }

/-- C2: for every single-bit origin, the board squares (bits 0 to 63) of
the mask produced by `generate_moves_knight` are exactly the on-board
squares an L-shaped offset away (file/rank distances `{1, 2}`), with no
wrap-around across an edge; a Knight at A1 on an empty board has exactly
the destinations B3 (square 17) and C2 (square 10), and a Knight at D4 has
exactly 8 destinations. -/
theorem C2_knight_geometry :
    (∀ i < 64, generate_moves_knight (bb i) % 2 ^ 64 = knight_spec i) ∧
    legal_moves_from knight_a1_board 0 = bb 10 ||| bb 17 ∧
    popcount64 (legal_moves_from knight_d4_board 27) = 8 := by
  refine ⟨by decide, by decide, by decide⟩

/-- Witness for C2: the general part evaluated at origin A1 (square 0). -/
theorem C2_knight_geometry_witness :
    (0 < 64) ∧ generate_moves_knight (bb 0) % 2 ^ 64 = knight_spec 0 :=
  ⟨by decide, C2_knight_geometry.1 0 (by decide)⟩

/-- The board left behind by the rejected move A3 to A4 on the fresh board:
identical to the starting board except that the all-pieces mask has gained
a ghost bit on the (empty) origin square A3 (bit 16):
`0xffff00000000ffff` has become `0xffff00000001ffff`. -/
def ghost_a3_board : Board :=
  { setup_new_board with all_pieces_bb := 0xffff00000001ffff }

/-- C5 (code evaluated at the failing input): on the fresh standard board,
`execute_move` from the empty square A3 returns failure yet mutates the
board: `_all_pieces_bb &= ~move_from_bb` removes nothing (A3 is empty), and
the "restore" `_all_pieces_bb |= move_from_bb` then sets the A3 bit, so the
failed call does not leave the state bit-for-bit identical. -/
theorem C5_failed_move_mutates_state :
    execute_move setup_new_board ['A', '3'] ['A', '4'] =
      Except.ok (false, ghost_a3_board) ∧ ghost_a3_board ≠ setup_new_board := by
  exact ⟨rfl, by decide⟩

/-- C7 (code evaluated at the failing input): a two-character label whose
rank character is outside 1-8 but not a digit makes `convert_to_bitboard`
raise a `ValueError` (from `int(location[1])`) instead of returning `None`.
For comparison, the digit rank characters outside 1-8 do return `None`. -/
theorem C7_rank_char_raises :
    convert_to_bitboard (PyVal.str ['A', 'X']) = Except.error () ∧
    convert_to_bitboard (PyVal.str ['A', '0']) = Except.ok none ∧
    convert_to_bitboard (PyVal.str ['A', '9']) = Except.ok none ∧
    convert_to_bitboard PyVal.nonstr = Except.ok none :=
  ⟨rfl, rfl, rfl, rfl⟩

/-- The board reached from the standard start by the successful move
A2 to A3 (so that it is Black's turn after `set_next_turn`). -/
def board_after_a2_a3 : Board :=
  match execute_move setup_new_board ['A', '2'] ['A', '3'] with
  | Except.ok p => p.2
  | Except.error _ => setup_new_board

/-- The legal-move bitboard the engine computes for Black's Knight on B8
(square 57) in the reachable position after 1. A2-A3. -/
def black_b8_knight_moves : Nat :=
  legal_moves_from (set_next_turn board_after_a2_a3) 57

/-- C9 (code evaluated at the failing input): the move A2-A3 succeeds, and
in the resulting position the legal-move bitboard for Black's knight at B8
has bits 67, 72 and 74 set - the returned integer is not a 64-bit value.
The on-board destinations A6 (40) and C6 (42) are also present. -/
theorem C9_knight_moves_exceed_64_bits :
    execute_move setup_new_board ['A', '2'] ['A', '3'] =
      Except.ok (true, board_after_a2_a3) ∧
    black_b8_knight_moves = bb 40 ||| bb 42 ||| bb 67 ||| bb 72 ||| bb 74 ∧
    2 ^ 64 ≤ black_b8_knight_moves := by
  exact ⟨rfl, by decide, by decide⟩

/-! ## Limited rays (pawn and king move limits) -/

lemma recc_left_zero_limit (occ loc dirn fuel : Nat) :
    recc_left_shift occ fuel loc dirn (some 0) = 0 := by
  cases fuel <;> simp [recc_left_shift]

lemma recc_right_zero_limit (occ loc dirn fuel : Nat) :
    recc_right_shift occ fuel loc dirn (some 0) = 0 := by
  cases fuel <;> simp [recc_right_shift]

lemma reccL8_lim1 (occ f r : Nat) (hf : f < 8) (hr : r < 8)
    (h0 : occ.testBit (8 * r + f) = false) :
    recc_left_shift occ 64 (bb (8 * r + f)) 8 (some 1) =
      if r = 7 then 0 else bb (8 * (r + 1) + f) := by
  rw [show (64 : Nat) = 63 + 1 from rfl, recc_left_shift]
  simp only [bb_and_ne, mask_rank8 r hr f hf, h0, Option.map_some',
    show ((8 : Nat) == 8) = true from rfl, show ((8 : Nat) == 1) = false from rfl,
    show ((8 : Nat) == 7) = false from rfl, show ((8 : Nat) == 9) = false from rfl,
    Bool.false_and, Bool.true_and, Bool.or_false, Bool.false_or, Bool.and_false,
    reduceCtorEq, if_false, Option.some.injEq, if_neg (by omega : ¬(1 : Nat) = 0)]
  by_cases hr7 : r = 7
  · simp [hr7]
  · have hstep : 8 * r + f + 8 = 8 * (r + 1) + f := by ring
    simp [hr7, bb_shiftLeft, hstep, recc_left_zero_limit]

lemma reccR8_lim1 (occ f r : Nat) (hf : f < 8) (hr : r < 8)
    (h0 : occ.testBit (8 * r + f) = false) :
    recc_right_shift occ 64 (bb (8 * r + f)) 8 (some 1) =
      if r = 0 then 0 else bb (8 * (r - 1) + f) := by
  rw [show (64 : Nat) = 63 + 1 from rfl, recc_right_shift]
  simp only [bb_and_ne, mask_rank1 r hr f hf, h0, Option.map_some',
    show ((8 : Nat) == 8) = true from rfl, show ((8 : Nat) == 1) = false from rfl,
    show ((8 : Nat) == 7) = false from rfl, show ((8 : Nat) == 9) = false from rfl,
    Bool.false_and, Bool.true_and, Bool.or_false, Bool.false_or, Bool.and_false,
    reduceCtorEq, if_false, Option.some.injEq, if_neg (by omega : ¬(1 : Nat) = 0)]
  by_cases hr0 : r = 0
  · simp [hr0]
  · rw [bb_shiftRight _ _ (by omega)]
    have hstep : 8 * r + f - 8 = 8 * (r - 1) + f := by omega
    simp [hr0, hstep, recc_right_zero_limit]

lemma reccL7_lim1 (occ f r : Nat) (hf : f < 8) (hr : r < 8)
    (h0 : occ.testBit (8 * r + f) = false) :
    recc_left_shift occ 64 (bb (8 * r + f)) 7 (some 1) =
      if r = 7 ∨ f = 0 then 0 else bb (8 * (r + 1) + (f - 1)) := by
  rw [show (64 : Nat) = 63 + 1 from rfl, recc_left_shift]
  simp only [bb_and_ne, mask_rank8_fileA r hr f hf, h0, Option.map_some',
    show ((7 : Nat) == 8) = false from rfl, show ((7 : Nat) == 1) = false from rfl,
    show ((7 : Nat) == 7) = true from rfl, show ((7 : Nat) == 9) = false from rfl,
    Bool.false_and, Bool.true_and, Bool.or_false, Bool.false_or, Bool.and_false,
    reduceCtorEq, if_false, Option.some.injEq, if_neg (by omega : ¬(1 : Nat) = 0)]
  by_cases hedge : r = 7 ∨ f = 0
  · rcases hedge with rfl | rfl <;> simp
  · push_neg at hedge
    have hstep : 8 * r + f + 7 = 8 * (r + 1) + (f - 1) := by omega
    simp [hedge.1, hedge.2, bb_shiftLeft, hstep, recc_left_zero_limit,
      if_neg (not_or.mpr hedge)]

lemma reccL9_lim1 (occ f r : Nat) (hf : f < 8) (hr : r < 8)
    (h0 : occ.testBit (8 * r + f) = false) :
    recc_left_shift occ 64 (bb (8 * r + f)) 9 (some 1) =
      if r = 7 ∨ f = 7 then 0 else bb (8 * (r + 1) + (f + 1)) := by
  rw [show (64 : Nat) = 63 + 1 from rfl, recc_left_shift]
  simp only [bb_and_ne, mask_rank8_fileH r hr f hf, h0, Option.map_some',
    show ((9 : Nat) == 8) = false from rfl, show ((9 : Nat) == 1) = false from rfl,
    show ((9 : Nat) == 7) = false from rfl, show ((9 : Nat) == 9) = true from rfl,
    Bool.false_and, Bool.true_and, Bool.or_false, Bool.false_or, Bool.and_false,
    reduceCtorEq, if_false, Option.some.injEq, if_neg (by omega : ¬(1 : Nat) = 0)]
  by_cases hedge : r = 7 ∨ f = 7
  · rcases hedge with rfl | rfl <;> simp
  · push_neg at hedge
    have hstep : 8 * r + f + 9 = 8 * (r + 1) + (f + 1) := by ring
    simp [hedge.1, hedge.2, bb_shiftLeft, hstep, recc_left_zero_limit,
      if_neg (not_or.mpr hedge)]

lemma reccR7_lim1 (occ f r : Nat) (hf : f < 8) (hr : r < 8)
    (h0 : occ.testBit (8 * r + f) = false) :
    recc_right_shift occ 64 (bb (8 * r + f)) 7 (some 1) =
      if r = 0 ∨ f = 7 then 0 else bb (8 * (r - 1) + (f + 1)) := by
  rw [show (64 : Nat) = 63 + 1 from rfl, recc_right_shift]
  simp only [bb_and_ne, mask_rank1_fileH r hr f hf, h0, Option.map_some',
    show ((7 : Nat) == 8) = false from rfl, show ((7 : Nat) == 1) = false from rfl,
    show ((7 : Nat) == 7) = true from rfl, show ((7 : Nat) == 9) = false from rfl,
    Bool.false_and, Bool.true_and, Bool.or_false, Bool.false_or, Bool.and_false,
    reduceCtorEq, if_false, Option.some.injEq, if_neg (by omega : ¬(1 : Nat) = 0)]
  by_cases hedge : r = 0 ∨ f = 7
  · rcases hedge with rfl | rfl <;> simp
  · push_neg at hedge
    rw [bb_shiftRight _ _ (by omega)]
    have hstep : 8 * r + f - 7 = 8 * (r - 1) + (f + 1) := by omega
    simp [hedge.1, hedge.2, hstep, recc_right_zero_limit, if_neg (not_or.mpr hedge)]

lemma reccR9_lim1 (occ f r : Nat) (hf : f < 8) (hr : r < 8)
    (h0 : occ.testBit (8 * r + f) = false) :
    recc_right_shift occ 64 (bb (8 * r + f)) 9 (some 1) =
      if r = 0 ∨ f = 0 then 0 else bb (8 * (r - 1) + (f - 1)) := by
  rw [show (64 : Nat) = 63 + 1 from rfl, recc_right_shift]
  simp only [bb_and_ne, mask_rank1_fileA r hr f hf, h0, Option.map_some',
    show ((9 : Nat) == 8) = false from rfl, show ((9 : Nat) == 1) = false from rfl,
    show ((9 : Nat) == 7) = false from rfl, show ((9 : Nat) == 9) = true from rfl,
    Bool.false_and, Bool.true_and, Bool.or_false, Bool.false_or, Bool.and_false,
    reduceCtorEq, if_false, Option.some.injEq, if_neg (by omega : ¬(1 : Nat) = 0)]
  by_cases hedge : r = 0 ∨ f = 0
  · rcases hedge with rfl | rfl <;> simp
  · push_neg at hedge
    rw [bb_shiftRight _ _ (by omega)]
    have hstep : 8 * r + f - 9 = 8 * (r - 1) + (f - 1) := by omega
    simp [hedge.1, hedge.2, hstep, recc_right_zero_limit, if_neg (not_or.mpr hedge)]

lemma reccL8_lim2 (occ f : Nat) (hf : f < 8) (h0 : occ.testBit (8 * 1 + f) = false) :
    recc_left_shift occ 64 (bb (8 * 1 + f)) 8 (some 2) =
      if occ.testBit (8 * 2 + f) then bb (8 * 2 + f)
      else bb (8 * 2 + f) ||| bb (8 * 3 + f) := by
  rw [show (64 : Nat) = 63 + 1 from rfl, recc_left_shift]
  simp only [bb_and_ne, mask_rank8 1 (by omega) f hf, h0, Option.map_some',
    show ((8 : Nat) == 8) = true from rfl, show ((8 : Nat) == 1) = false from rfl,
    show ((8 : Nat) == 7) = false from rfl, show ((8 : Nat) == 9) = false from rfl,
    Bool.false_and, Bool.true_and, Bool.or_false, Bool.false_or, Bool.and_false,
    reduceCtorEq, if_false, Option.some.injEq, if_neg (by omega : ¬(2 : Nat) = 0)]
  have hstep1 : 8 * 1 + f + 8 = 8 * 2 + f := by ring
  simp only [show (decide ((1 : Nat) = 7)) = false from rfl, Bool.false_eq_true, if_false,
    bb_shiftLeft, hstep1]
  rw [show (63 : Nat) = 62 + 1 from rfl, recc_left_shift]
  simp only [bb_and_ne, mask_rank8 2 (by omega) f hf, Option.map_some',
    show ((8 : Nat) == 8) = true from rfl, show ((8 : Nat) == 1) = false from rfl,
    show ((8 : Nat) == 7) = false from rfl, show ((8 : Nat) == 9) = false from rfl,
    Bool.false_and, Bool.true_and, Bool.or_false, Bool.false_or, Bool.and_false,
    reduceCtorEq, if_false, Option.some.injEq, if_neg (by omega : ¬(1 : Nat) = 0)]
  by_cases hocc : occ.testBit (8 * 2 + f) = true
  · simp [hocc]
  · have hocc' : occ.testBit (8 * 2 + f) = false := by
      revert hocc; cases occ.testBit (8 * 2 + f) <;> simp
    have hstep2 : 8 * 2 + f + 8 = 8 * 3 + f := by ring
    simp [hocc', bb_shiftLeft, hstep2, recc_left_zero_limit]

lemma reccR8_lim2 (occ f : Nat) (hf : f < 8) (h0 : occ.testBit (8 * 6 + f) = false) :
    recc_right_shift occ 64 (bb (8 * 6 + f)) 8 (some 2) =
      if occ.testBit (8 * 5 + f) then bb (8 * 5 + f)
      else bb (8 * 5 + f) ||| bb (8 * 4 + f) := by
  rw [show (64 : Nat) = 63 + 1 from rfl, recc_right_shift]
  simp only [bb_and_ne, mask_rank1 6 (by omega) f hf, h0, Option.map_some',
    show ((8 : Nat) == 8) = true from rfl, show ((8 : Nat) == 1) = false from rfl,
    show ((8 : Nat) == 7) = false from rfl, show ((8 : Nat) == 9) = false from rfl,
    Bool.false_and, Bool.true_and, Bool.or_false, Bool.false_or, Bool.and_false,
    reduceCtorEq, if_false, Option.some.injEq, if_neg (by omega : ¬(2 : Nat) = 0)]
  rw [bb_shiftRight _ _ (by omega)]
  have hstep1 : 8 * 6 + f - 8 = 8 * 5 + f := by omega
  simp only [show (decide ((6 : Nat) = 0)) = false from rfl, Bool.false_eq_true, if_false, hstep1]
  rw [show (63 : Nat) = 62 + 1 from rfl, recc_right_shift]
  simp only [bb_and_ne, mask_rank1 5 (by omega) f hf, Option.map_some',
    show ((8 : Nat) == 8) = true from rfl, show ((8 : Nat) == 1) = false from rfl,
    show ((8 : Nat) == 7) = false from rfl, show ((8 : Nat) == 9) = false from rfl,
    Bool.false_and, Bool.true_and, Bool.or_false, Bool.false_or, Bool.and_false,
    reduceCtorEq, if_false, Option.some.injEq, if_neg (by omega : ¬(1 : Nat) = 0)]
  by_cases hocc : occ.testBit (8 * 5 + f) = true
  · simp [hocc]
  · have hocc' : occ.testBit (8 * 5 + f) = false := by
      revert hocc; cases occ.testBit (8 * 5 + f) <;> simp
    rw [bb_shiftRight _ _ (by omega)]
    have hstep2 : 8 * 5 + f - 8 = 8 * 4 + f := by omega
    simp [hocc', hstep2, recc_right_zero_limit]

/-! ## Small bitboard algebra -/

lemma andNot_zero (b : Nat) : andNot 0 b = 0 := by simp [andNot]

lemma andNot_lor (a b c : Nat) : andNot (a ||| b) c = andNot a c ||| andNot b c := by
  apply Nat.eq_of_testBit_eq
  intro j
  simp only [testBit_andNot, Nat.testBit_lor]
  cases a.testBit j <;> cases b.testBit j <;> cases c.testBit j <;> rfl

lemma and_lor_left (c a b : Nat) : c &&& (a ||| b) = (c &&& a) ||| (c &&& b) := by
  apply Nat.eq_of_testBit_eq
  intro j
  simp only [Nat.testBit_land, Nat.testBit_lor]
  cases a.testBit j <;> cases b.testBit j <;> cases c.testBit j <;> rfl

lemma bb_andNot (j m : Nat) : andNot (bb j) m = if m.testBit j then 0 else bb j := by
  apply Nat.eq_of_testBit_eq
  intro i
  by_cases h : m.testBit j = true
  · simp only [h, if_true, Nat.zero_testBit, testBit_andNot, testBit_bb]
    by_cases hij : j = i
    · subst hij; simp [h]
    · simp [hij]
  · have h' : m.testBit j = false := by revert h; cases m.testBit j <;> simp
    simp only [h', if_false, testBit_andNot, testBit_bb, Bool.false_eq_true]
    by_cases hij : j = i
    · subst hij; simp [h']
    · simp [hij]

lemma and_bb (m j : Nat) : m &&& bb j = if m.testBit j then bb j else 0 := by
  rw [bb_eq_two_pow, Nat.and_two_pow]
  cases h : m.testBit j <;> simp [h, bb_eq_two_pow]

lemma fwd_filter (aw ab ap j : Nat) (hapj : ap.testBit j = (aw ||| ab).testBit j) :
    andNot (andNot (bb j) ap) aw = if (aw ||| ab).testBit j then 0 else bb j := by
  rw [bb_andNot, hapj]
  by_cases h : (aw ||| ab).testBit j = true
  · simp [h, andNot_zero]
  · have h' : (aw ||| ab).testBit j = false := by revert h; cases (aw ||| ab).testBit j <;> simp
    have haw : aw.testBit j = false := by
      revert h'; rw [Nat.testBit_lor]; cases aw.testBit j <;> simp
    simp [h', bb_andNot, haw]

lemma occ_split (aw ab j : Nat) (hdisj : aw &&& ab = 0) :
    aw.testBit j = false ∨ ab.testBit j = false := by
  have h : (aw &&& ab).testBit j = false := by rw [hdisj]; exact Nat.zero_testBit j
  rw [Nat.testBit_land] at h
  cases haw : aw.testBit j
  · exact Or.inl rfl
  · cases hab : ab.testBit j
    · exact Or.inr rfl
    · rw [haw, hab] at h; exact absurd h (by simp)

lemma diag_filter (aw ab ap j : Nat) (hapj : ap.testBit j = (aw ||| ab).testBit j)
    (hdisj : aw &&& ab = 0) :
    andNot (ap &&& bb j) aw = if ab.testBit j then bb j else 0 := by
  rw [and_bb, hapj]
  rcases occ_split aw ab j hdisj with haw | hab
  · by_cases hab : ab.testBit j = true
    · simp [Nat.testBit_lor, haw, hab, bb_andNot]
    · have hab' : ab.testBit j = false := by revert hab; cases ab.testBit j <;> simp
      simp [Nat.testBit_lor, haw, hab', bb_andNot, andNot_zero]
  · by_cases haw : aw.testBit j = true
    · simp [Nat.testBit_lor, haw, hab, bb_andNot, andNot_zero]
    · have haw' : aw.testBit j = false := by revert haw; cases aw.testBit j <;> simp
      simp [Nat.testBit_lor, haw', hab, bb_andNot, andNot_zero]

lemma andNot_ite (P : Prop) [Decidable P] (a b c : Nat) :
    andNot (if P then a else b) c = if P then andNot a c else andNot b c := by
  split <;> rfl

lemma and_ite (c : Nat) (P : Prop) [Decidable P] (a b : Nat) :
    c &&& (if P then a else b) = if P then c &&& a else c &&& b := by
  split <;> rfl

lemma ite_not_or (a b : Bool) (X Y : Nat) :
    (if a = false ∧ b = false then X else Y) = if a = true ∨ b = true then Y else X := by
  cases a <;> cases b <;> simp

lemma ite_not_or2 (a b c d : Bool) (X Y : Nat) :
    (if (a = false ∧ b = false) ∧ (c = false ∧ d = false) then X else Y) =
      if a = true ∨ b = true then Y else if c = true ∨ d = true then Y else X := by
  cases a <;> cases b <;> cases c <;> cases d <;> simp

lemma ite_diagL (f : Nat) (P : Prop) [Decidable P] (X : Nat) :
    (if 1 ≤ f ∧ P then X else 0) = if f = 0 then 0 else if P then X else 0 := by
  by_cases hf : f = 0
  · subst hf; simp
  · rw [if_neg hf]
    by_cases hp : P <;> simp [hp, (show 1 ≤ f by omega)]

lemma ite_diagR (f : Nat) (hf : f < 8) (P : Prop) [Decidable P] (X : Nat) :
    (if f + 1 ≤ 7 ∧ P then X else 0) = if f = 7 then 0 else if P then X else 0 := by
  by_cases hf7 : f = 7
  · subst hf7; simp
  · rw [if_neg hf7]
    by_cases hp : P <;> simp [hp, (show f + 1 ≤ 7 by omega)]

lemma pawn_spec_white (aw ab f r : Nat) :
    pawn_spec Side.White aw ab f r =
      (if (decide (r + 1 ≤ 7) && !(aw ||| ab).testBit (8 * (r + 1) + f)) = true
        then bb (8 * (r + 1) + f) else 0) |||
      (if (r == 1 && !(aw ||| ab).testBit (8 * (r + 1) + f) &&
          !(aw ||| ab).testBit (8 * (r + 2) + f)) = true
        then bb (8 * (r + 2) + f) else 0) |||
      (if (decide (r + 1 ≤ 7) && decide (1 ≤ f) && ab.testBit (8 * (r + 1) + (f - 1))) = true
        then bb (8 * (r + 1) + (f - 1)) else 0) |||
      (if (decide (r + 1 ≤ 7) && decide (f + 1 ≤ 7) && ab.testBit (8 * (r + 1) + (f + 1))) = true
        then bb (8 * (r + 1) + (f + 1)) else 0) := rfl

/-- The White pawn move set computed by the source (via `generate_moves_pawn`
filtered by the mover's occupancy, as `find_valid_moves` does, on the
all-pieces mask with the origin removed, as `execute_move` does) is exactly
the spec's pawn destination set. -/
lemma pawn_moves_white (aw ab : Nat) (f r : Nat) (hf : f < 8) (hr : r < 8)
    (hdisj : aw &&& ab = 0) :
    andNot (generate_moves_pawn Side.White (andNot (aw ||| ab) (bb (8 * r + f))) (bb (8 * r + f))) aw
      = pawn_spec Side.White aw ab f r := by
  set ap := andNot (aw ||| ab) (bb (8 * r + f)) with hap
  have hap0 : ap.testBit (8 * r + f) = false := by
    simp [hap, testBit_andNot, testBit_bb]
  have hapbit : ∀ j, ¬(8 * r + f) = j → ap.testBit j = (aw ||| ab).testBit j := by
    intro j hj
    simp [hap, testBit_andNot, testBit_bb, hj]
  simp only [generate_moves_pawn, generate_moves, if_pos rfl, List.foldl_cons, List.foldl_nil,
    bb_and_ne, mask_rank2 r hr f hf, if_true, ite_true,
    show ((8 : Int) * 1) = 8 from rfl, show ((7 : Int) * 1) = 7 from rfl,
    show ((9 : Int) * 1) = 9 from rfl]
  norm_num
  simp only [show Int.toNat 8 = 8 from rfl, show Int.toNat 7 = 7 from rfl,
    show Int.toNat 9 = 9 from rfl]
  rw [reccL7_lim1 ap f r hf hr hap0, reccL9_lim1 ap f r hf hr hap0]
  rw [and_lor_left, andNot_lor]
  by_cases hr7 : r = 7
  · subst hr7
    rw [if_neg (by omega : ¬(7 : Nat) = 1), reccL8_lim1 ap f 7 hf hr hap0]
    simp [pawn_spec, andNot_zero]
  · by_cases hr1 : r = 1
    · subst hr1
      rw [if_pos rfl, reccL8_lim2 ap f hf hap0, hapbit (8 * 2 + f) (by omega)]
      rw [andNot_ite, andNot_ite, andNot_lor, andNot_lor]
      rw [fwd_filter aw ab ap (8 * 2 + f) (hapbit _ (by omega)),
        fwd_filter aw ab ap (8 * 3 + f) (hapbit _ (by omega))]
      rw [and_ite, and_ite, andNot_lor, andNot_ite, andNot_ite]
      simp only [Nat.and_zero, andNot_zero]
      rw [diag_filter aw ab ap (8 * (1 + 1) + (f - 1)) (hapbit _ (by omega)) hdisj,
        diag_filter aw ab ap (8 * (1 + 1) + (f + 1)) (hapbit _ (by omega)) hdisj]
      rw [pawn_spec_white]
      norm_num [Nat.and_zero, andNot_zero]
      clear hapbit hap0 hap hdisj
      clear ap
      rw [ite_not_or, ite_not_or2, ite_diagL, ite_diagR f hf]
      split_ifs <;> first | rfl | simp [Nat.lor_assoc]
    · rw [if_neg hr1, reccL8_lim1 ap f r hf hr hap0, if_neg hr7]
      rw [fwd_filter aw ab ap (8 * (r + 1) + f) (hapbit _ (by omega))]
      rw [and_ite, and_ite, andNot_lor, andNot_ite, andNot_ite]
      simp only [Nat.and_zero, andNot_zero]
      rw [diag_filter aw ab ap (8 * (r + 1) + (f - 1)) (hapbit _ (by omega)) hdisj,
        diag_filter aw ab ap (8 * (r + 1) + (f + 1)) (hapbit _ (by omega)) hdisj]
      rw [pawn_spec_white]
      clear hapbit hap0 hap hdisj
      clear ap
      norm_num [hr7, hr1, (show r + 1 ≤ 7 by omega), (show (r == 1) = false by simp [hr1])]
      rw [ite_not_or, ite_diagL, ite_diagR f hf]
      split_ifs <;> first | rfl | simp [Nat.lor_assoc]

lemma lor_left_comm (a b c : Nat) : a ||| (b ||| c) = b ||| (a ||| c) := by
  rw [← Nat.lor_assoc, Nat.lor_comm a b, Nat.lor_assoc]

lemma pawn_spec_black (aw ab f r : Nat) :
    pawn_spec Side.Black ab aw f r =
      (if (decide (1 ≤ r) && !(ab ||| aw).testBit (8 * (r - 1) + f)) = true
        then bb (8 * (r - 1) + f) else 0) |||
      (if (r == 6 && !(ab ||| aw).testBit (8 * (r - 1) + f) &&
          !(ab ||| aw).testBit (8 * (r - 2) + f)) = true
        then bb (8 * (r - 2) + f) else 0) |||
      (if (decide (1 ≤ r) && decide (1 ≤ f) && aw.testBit (8 * (r - 1) + (f - 1))) = true
        then bb (8 * (r - 1) + (f - 1)) else 0) |||
      (if (decide (1 ≤ r) && decide (f + 1 ≤ 7) && aw.testBit (8 * (r - 1) + (f + 1))) = true
        then bb (8 * (r - 1) + (f + 1)) else 0) := rfl

/-- Black mirror of `pawn_moves_white`. -/
lemma pawn_moves_black (aw ab : Nat) (f r : Nat) (hf : f < 8) (hr : r < 8)
    (hdisj : aw &&& ab = 0) :
    andNot (generate_moves_pawn Side.Black (andNot (aw ||| ab) (bb (8 * r + f))) (bb (8 * r + f))) ab
      = pawn_spec Side.Black ab aw f r := by
  set ap := andNot (aw ||| ab) (bb (8 * r + f)) with hap
  have hap0 : ap.testBit (8 * r + f) = false := by
    simp [hap, testBit_andNot, testBit_bb]
  have hapbit : ∀ j, ¬(8 * r + f) = j → ap.testBit j = (ab ||| aw).testBit j := by
    intro j hj
    rw [Nat.lor_comm]
    simp [hap, testBit_andNot, testBit_bb, hj]
  have hdisj' : ab &&& aw = 0 := by rw [Nat.land_comm]; exact hdisj
  simp only [generate_moves_pawn, generate_moves, List.foldl_cons, List.foldl_nil,
    bb_and_ne, mask_rank7 r hr f hf,
    if_neg (show ¬Side.Black = Side.White by decide),
    show ((8 : Int) * -1) = -8 from rfl, show ((7 : Int) * -1) = -7 from rfl,
    show ((9 : Int) * -1) = -9 from rfl]
  norm_num
  rw [reccR7_lim1 ap f r hf hr hap0, reccR9_lim1 ap f r hf hr hap0]
  rw [and_lor_left, andNot_lor]
  by_cases hr0 : r = 0
  · subst hr0
    rw [if_neg (by omega : ¬(0 : Nat) = 6), reccR8_lim1 ap f 0 hf hr hap0]
    simp [pawn_spec, andNot_zero]
  · by_cases hr6 : r = 6
    · subst hr6
      rw [if_pos rfl, reccR8_lim2 ap f hf hap0, hapbit (8 * 5 + f) (by omega)]
      rw [andNot_ite, andNot_ite, andNot_lor, andNot_lor]
      rw [fwd_filter ab aw ap (8 * 5 + f) (hapbit _ (by omega)),
        fwd_filter ab aw ap (8 * 4 + f) (hapbit _ (by omega))]
      rw [and_ite, and_ite, andNot_lor, andNot_ite, andNot_ite]
      simp only [Nat.and_zero, andNot_zero]
      rw [diag_filter ab aw ap (8 * (6 - 1) + (f + 1)) (hapbit _ (by omega)) hdisj',
        diag_filter ab aw ap (8 * (6 - 1) + (f - 1)) (hapbit _ (by omega)) hdisj']
      rw [pawn_spec_black]
      clear hapbit hap0 hap hdisj hdisj'
      clear ap
      norm_num [Nat.and_zero, andNot_zero]
      rw [ite_not_or, ite_not_or2, ite_diagL, ite_diagR f hf]
      split_ifs <;> first | rfl | simp [Nat.lor_assoc, Nat.lor_comm, lor_left_comm]
    · rw [if_neg hr6, reccR8_lim1 ap f r hf hr hap0, if_neg hr0]
      rw [fwd_filter ab aw ap (8 * (r - 1) + f) (hapbit _ (by omega))]
      rw [and_ite, and_ite, andNot_lor, andNot_ite, andNot_ite]
      simp only [Nat.and_zero, andNot_zero]
      rw [diag_filter ab aw ap (8 * (r - 1) + (f + 1)) (hapbit _ (by omega)) hdisj',
        diag_filter ab aw ap (8 * (r - 1) + (f - 1)) (hapbit _ (by omega)) hdisj']
      rw [pawn_spec_black]
      clear hapbit hap0 hap hdisj hdisj'
      clear ap
      norm_num [hr0, hr6, (show 1 ≤ r by omega), (show (r == 6) = false by simp [hr6])]
      rw [ite_not_or, ite_diagL, ite_diagR f hf]
      split_ifs <;> first | rfl | simp [Nat.lor_assoc, Nat.lor_comm, lor_left_comm]

def pawn_e2_white_blocked_board : Board :=
  { current_turn := Side.White
    piece_moved_index := none
    piece_captured_index := none
    white_pieces_list := [bb 12 ||| bb 20, 0, 0, 0, 0, 0]
    black_pieces_list := [0, 0, 0, 0, 0, 0]
    all_white_pieces_bb := bb 12 ||| bb 20
    all_black_pieces_bb := 0
    all_pieces_bb := bb 12 ||| bb 20 }

def pawn_e2_black_blocked_board : Board :=
  { current_turn := Side.White
    piece_moved_index := none
    piece_captured_index := none
    white_pieces_list := [bb 12, 0, 0, 0, 0, 0]
    black_pieces_list := [bb 20, 0, 0, 0, 0, 0]
    all_white_pieces_bb := bb 12
    all_black_pieces_bb := bb 20
    all_pieces_bb := bb 12 ||| bb 20 }

def pawn_e2_black_d3_board : Board :=
  { current_turn := Side.White
    piece_moved_index := none
    piece_captured_index := none
    white_pieces_list := [bb 12, 0, 0, 0, 0, 0]
    black_pieces_list := [bb 20 ||| bb 19, 0, 0, 0, 0, 0]
    all_white_pieces_bb := bb 12
    all_black_pieces_bb := bb 20 ||| bb 19
    all_pieces_bb := bb 12 ||| bb 20 ||| bb 19 }

/-- C3: for every board occupancy and every single-bit origin holding a pawn
of the side to move - with the origin bit removed from the all-pieces mask,
as `execute_move` does before generation, and with the two aggregate side
masks disjoint - the pawn's legal destination set is exactly the spec's
`pawn_spec`: the one-step forward square only if unoccupied, the two-step
square only from the starting rank with both forward squares unoccupied,
and a forward diagonal only if it holds an opposing piece.  In particular a
White pawn at E2 with E3 occupied by either side has zero destinations
unless D3/F3 hold an opposing piece (then exactly that capture). -/
theorem C3_pawn_moves :
    (∀ b : Board, ∀ f r : Nat, f < 8 → r < 8 →
      ((if b.current_turn = Side.White then b.white_pieces_list
        else b.black_pieces_list).getD 0 0 &&& bb (8 * r + f) != 0) = true →
      b.all_pieces_bb =
        andNot (b.all_white_pieces_bb ||| b.all_black_pieces_bb) (bb (8 * r + f)) →
      b.all_white_pieces_bb &&& b.all_black_pieces_bb = 0 →
      (find_valid_moves b (bb (8 * r + f))).2 =
        (if b.current_turn = Side.White
          then pawn_spec Side.White b.all_white_pieces_bb b.all_black_pieces_bb f r
          else pawn_spec Side.Black b.all_black_pieces_bb b.all_white_pieces_bb f r)) ∧
    legal_moves_from pawn_e2_white_blocked_board 12 = 0 ∧
    legal_moves_from pawn_e2_black_blocked_board 12 = 0 ∧
    legal_moves_from pawn_e2_black_d3_board 12 = bb 19 := by
  refine ⟨?_, by decide, by decide, by decide⟩
  intro b f r hf hr hpawn hap hdisj
  cases hturn : b.current_turn
  case White =>
    rw [hturn] at hpawn
    simp only [find_valid_moves, hturn, reduceIte] at hpawn ⊢
    rw [if_pos hpawn, hap]
    exact pawn_moves_white b.all_white_pieces_bb b.all_black_pieces_bb f r hf hr hdisj
  case Black =>
    rw [hturn] at hpawn
    simp only [find_valid_moves, hturn, reduceIte] at hpawn ⊢
    rw [if_pos hpawn, hap]
    exact pawn_moves_black b.all_white_pieces_bb b.all_black_pieces_bb f r hf hr hdisj

/-- The E2-pawn board with Black pawns on E3 and D3, with the origin bit
already removed from the all-pieces mask (as `execute_move` does). -/
def pawn_witness_board : Board :=
  { pawn_e2_black_d3_board with all_pieces_bb := bb 20 ||| bb 19 }

/-- Witness for C3: the hypotheses hold for the White pawn at E2 (square
`8*1+4`) on `pawn_witness_board`, and the conclusion evaluates there. -/
theorem C3_pawn_moves_witness :
    (4 < 8 ∧ 1 < 8 ∧
      ((if pawn_witness_board.current_turn = Side.White then pawn_witness_board.white_pieces_list
        else pawn_witness_board.black_pieces_list).getD 0 0 &&& bb (8 * 1 + 4) != 0) = true ∧
      pawn_witness_board.all_pieces_bb =
        andNot (pawn_witness_board.all_white_pieces_bb ||| pawn_witness_board.all_black_pieces_bb)
          (bb (8 * 1 + 4)) ∧
      pawn_witness_board.all_white_pieces_bb &&& pawn_witness_board.all_black_pieces_bb = 0) ∧
    (find_valid_moves pawn_witness_board (bb (8 * 1 + 4))).2 =
      (if pawn_witness_board.current_turn = Side.White
        then pawn_spec Side.White pawn_witness_board.all_white_pieces_bb
          pawn_witness_board.all_black_pieces_bb 4 1
        else pawn_spec Side.Black pawn_witness_board.all_black_pieces_bb
          pawn_witness_board.all_white_pieces_bb 4 1) :=
  ⟨⟨by decide, by decide, by decide, by decide, by decide⟩,
    C3_pawn_moves.1 pawn_witness_board 4 1 (by decide) (by decide) (by decide) (by decide)
      (by decide)⟩

def list_union (l : List Nat) : Nat := l.foldr (fun a b => a ||| b) 0

lemma getD_set_ne (l : List Nat) (i j v : Nat) (h : ¬ i = j) :
    (l.set i v).getD j 0 = l.getD j 0 := by
  simp [List.getD_eq_getElem?_getD, List.getElem?_set, h]

lemma getD_set_self (l : List Nat) (i v : Nat) (h : i < l.length) :
    (l.set i v).getD i 0 = v := by
  simp [List.getD_eq_getElem?_getD, List.getElem?_set, h]

/-- Rejected-capture step: if the destination does not intersect the
scanned opposing mask, the loop iteration leaves the board unchanged. -/
lemma capture_step_skip (tb : Nat) (b : Board) (i : Nat)
    (h : ((if b.current_turn = Side.White then b.black_pieces_list
      else b.white_pieces_list).getD i 0).testBit tb = false) :
    capture_step (bb tb) b i = b := by
  rw [List.getD_eq_getElem?_getD] at h
  rw [capture_step]
  simp [bb_and_ne, h]

/-- `update_bitboards` on White's turn with no opposing piece on the
destination: only the mover's masks change. -/
lemma update_white_no_capture (b : Board) (k jf jt : Nat)
    (hturn : b.current_turn = Side.White)
    (hnc : b.all_black_pieces_bb.testBit jt = false) :
    update_bitboards b k (bb jf) (bb jt) =
      { b with
        white_pieces_list := b.white_pieces_list.set k
          ((andNot (b.white_pieces_list.getD k 0) (bb jf)) ||| bb jt)
        all_white_pieces_bb := andNot b.all_white_pieces_bb (bb jf) ||| bb jt
        all_pieces_bb := andNot b.all_pieces_bb (bb jf) ||| bb jt } := by
  rw [update_bitboards]
  simp [hturn, bb_and_ne, hnc]

/-- `update_bitboards` on White's turn capturing the Black piece of kind
`k'` on the destination square: the scan loop clears exactly that mask and
records `k'`. -/
lemma update_white_capture (b : Board) (k jf jt k' : Nat)
    (hturn : b.current_turn = Side.White)
    (hlen : b.black_pieces_list.length = 6)
    (hk' : k' < 6)
    (hhit : (b.black_pieces_list.getD k' 0).testBit jt = true)
    (hothers : ∀ i < 6, ¬i = k' → (b.black_pieces_list.getD i 0).testBit jt = false)
    (hagg : b.all_black_pieces_bb.testBit jt = true) :
    update_bitboards b k (bb jf) (bb jt) =
      { b with
        white_pieces_list := b.white_pieces_list.set k
          ((andNot (b.white_pieces_list.getD k 0) (bb jf)) ||| bb jt)
        all_white_pieces_bb := andNot b.all_white_pieces_bb (bb jf) ||| bb jt
        all_pieces_bb := andNot b.all_pieces_bb (bb jf) ||| bb jt
        black_pieces_list := b.black_pieces_list.set k'
          (andNot (b.black_pieces_list.getD k' 0) (bb jt))
        all_black_pieces_bb := andNot b.all_black_pieces_bb (bb jt)
        piece_captured_index := some k' } := by
  obtain ⟨B0, B1, B2, B3, B4, B5, hB⟩ :
      ∃ B0 B1 B2 B3 B4 B5, b.black_pieces_list = [B0, B1, B2, B3, B4, B5] := by
    match hl : b.black_pieces_list, hlen with
    | [B0, B1, B2, B3, B4, B5], _ => exact ⟨B0, B1, B2, B3, B4, B5, rfl⟩
  have f0 := hothers 0 (by omega)
  have f1 := hothers 1 (by omega)
  have f2 := hothers 2 (by omega)
  have f3 := hothers 3 (by omega)
  have f4 := hothers 4 (by omega)
  have f5 := hothers 5 (by omega)
  rw [update_bitboards]
  rw [show List.range 6 = [0, 1, 2, 3, 4, 5] from rfl]
  interval_cases k' <;>
    simp_all [hturn, bb_and_ne, hagg, capture_step, hB, List.getD, List.set, List.foldl]

/-- Black mirror of `update_white_no_capture`. -/
lemma update_black_no_capture (b : Board) (k jf jt : Nat)
    (hturn : b.current_turn = Side.Black)
    (hnc : b.all_white_pieces_bb.testBit jt = false) :
    update_bitboards b k (bb jf) (bb jt) =
      { b with
        black_pieces_list := b.black_pieces_list.set k
          ((andNot (b.black_pieces_list.getD k 0) (bb jf)) ||| bb jt)
        all_black_pieces_bb := andNot b.all_black_pieces_bb (bb jf) ||| bb jt
        all_pieces_bb := andNot b.all_pieces_bb (bb jf) ||| bb jt } := by
  rw [update_bitboards]
  simp [hturn, bb_and_ne, hnc]

/-- Black mirror of `update_white_capture`. -/
lemma update_black_capture (b : Board) (k jf jt k' : Nat)
    (hturn : b.current_turn = Side.Black)
    (hlen : b.white_pieces_list.length = 6)
    (hk' : k' < 6)
    (hhit : (b.white_pieces_list.getD k' 0).testBit jt = true)
    (hothers : ∀ i < 6, ¬i = k' → (b.white_pieces_list.getD i 0).testBit jt = false)
    (hagg : b.all_white_pieces_bb.testBit jt = true) :
    update_bitboards b k (bb jf) (bb jt) =
      { b with
        black_pieces_list := b.black_pieces_list.set k
          ((andNot (b.black_pieces_list.getD k 0) (bb jf)) ||| bb jt)
        all_black_pieces_bb := andNot b.all_black_pieces_bb (bb jf) ||| bb jt
        all_pieces_bb := andNot b.all_pieces_bb (bb jf) ||| bb jt
        white_pieces_list := b.white_pieces_list.set k'
          (andNot (b.white_pieces_list.getD k' 0) (bb jt))
        all_white_pieces_bb := andNot b.all_white_pieces_bb (bb jt)
        piece_captured_index := some k' } := by
  obtain ⟨W0, W1, W2, W3, W4, W5, hW⟩ :
      ∃ W0 W1 W2 W3 W4 W5, b.white_pieces_list = [W0, W1, W2, W3, W4, W5] := by
    match hl : b.white_pieces_list, hlen with
    | [W0, W1, W2, W3, W4, W5], _ => exact ⟨W0, W1, W2, W3, W4, W5, rfl⟩
  have f0 := hothers 0 (by omega)
  have f1 := hothers 1 (by omega)
  have f2 := hothers 2 (by omega)
  have f3 := hothers 3 (by omega)
  have f4 := hothers 4 (by omega)
  have f5 := hothers 5 (by omega)
  rw [update_bitboards]
  rw [show List.range 6 = [0, 1, 2, 3, 4, 5] from rfl]
  interval_cases k' <;>
    simp_all [hturn, bb_and_ne, hagg, capture_step, hW, List.getD, List.set, List.foldl]

/-- A successful conversion produces the single-bit mask of an on-board
square. -/
lemma convert_ok_bb (s : List Char) (m : Nat)
    (h : convert_to_bitboard (PyVal.str s) = Except.ok (some m)) :
    ∃ j, j < 64 ∧ m = bb j := by
  rw [convert_to_bitboard] at h
  by_cases hlen : s.length ≠ 2
  · rw [if_pos hlen] at h; exact absurd h (by simp)
  · rw [if_neg hlen] at h
    rcases hd : py_int (s.getD 1 ' ') with e | d
    · rw [hd] at h; exact absurd h (by simp)
    · rw [hd] at h
      dsimp only at h
      set file : Int := ((s.getD 0 ' ').toUpper.toNat : Int) - 65 with hfile
      by_cases h1 : file < 0 ∨ file > 7
      · rw [if_pos h1] at h; exact absurd h (by simp)
      · rw [if_neg h1] at h
        by_cases h2 : (d : Int) - 1 < 0 ∨ (d : Int) - 1 > 7
        · rw [if_pos h2] at h; exact absurd h (by simp)
        · rw [if_neg h2] at h
          simp only [Except.ok.injEq, Option.some.injEq] at h
          refine ⟨8 * ((d : Int) - 1).toNat + file.toNat, ?_, ?_⟩
          · push_neg at h1 h2
            omega
          · rw [← h]; rfl

/-- Case analysis of `find_valid_moves`: either no piece of the mover is on
the origin (board returned untouched, empty move set), or the first
matching piece index `k` is recorded and the move set is the generated set
filtered by the mover's occupancy. -/
lemma find_valid_cases (b : Board) (m : Nat) :
    ((find_valid_moves b m).1 = b ∧ (find_valid_moves b m).2 = 0) ∨
    ∃ k, k < 6 ∧
      ((if b.current_turn = Side.White then b.white_pieces_list
        else b.black_pieces_list).getD k 0 &&& m != 0) = true ∧
      (find_valid_moves b m).1 = { b with piece_moved_index := some k } ∧
      ∃ raw, (find_valid_moves b m).2 =
        andNot raw (if b.current_turn = Side.White then b.all_white_pieces_bb
          else b.all_black_pieces_bb) := by
  cases hturn : b.current_turn
  case White =>
    simp only [find_valid_moves, hturn, eq_self_iff_true, if_true]
    split_ifs with h0 h1 h2 h3 h4 h5
    · exact Or.inr ⟨0, by omega, h0, rfl, _, rfl⟩
    · exact Or.inr ⟨1, by omega, h1, rfl, _, rfl⟩
    · exact Or.inr ⟨2, by omega, h2, rfl, _, rfl⟩
    · exact Or.inr ⟨3, by omega, h3, rfl, _, rfl⟩
    · exact Or.inr ⟨4, by omega, h4, rfl, _, rfl⟩
    · exact Or.inr ⟨5, by omega, h5, rfl, _, rfl⟩
    · exact Or.inl ⟨rfl, rfl⟩
  case Black =>
    simp only [find_valid_moves, hturn, reduceCtorEq, if_false]
    split_ifs with h0 h1 h2 h3 h4 h5
    · exact Or.inr ⟨0, by omega, h0, rfl, _, rfl⟩
    · exact Or.inr ⟨1, by omega, h1, rfl, _, rfl⟩
    · exact Or.inr ⟨2, by omega, h2, rfl, _, rfl⟩
    · exact Or.inr ⟨3, by omega, h3, rfl, _, rfl⟩
    · exact Or.inr ⟨4, by omega, h4, rfl, _, rfl⟩
    · exact Or.inr ⟨5, by omega, h5, rfl, _, rfl⟩
    · exact Or.inl ⟨rfl, rfl⟩

/-- Structure of a successful `execute_move`: both labels convert to
on-board single-bit masks, a mover's piece is found at the origin (after
the origin bit is removed from the all-pieces mask), the destination is in
the returned legal set, and the result is `update_bitboards`. -/
lemma execute_move_ok (b b' : Board) (mf mt : List Char)
    (h : execute_move b mf mt = Except.ok (true, b')) :
    ∃ jf jt k,
      jf < 64 ∧ jt < 64 ∧
      (find_valid_moves { b with all_pieces_bb := andNot b.all_pieces_bb (bb jf) }
        (bb jf)).1.piece_moved_index = some k ∧
      (bb jt &&&
        (find_valid_moves { b with all_pieces_bb := andNot b.all_pieces_bb (bb jf) }
          (bb jf)).2 != 0) = true ∧
      b' = update_bitboards
        (find_valid_moves { b with all_pieces_bb := andNot b.all_pieces_bb (bb jf) }
          (bb jf)).1 k (bb jf) (bb jt) := by
  rw [execute_move] at h
  split_ifs at h
  · exact absurd h (by simp)
  · rcases hmf : convert_to_bitboard (PyVal.str mf) with e | mfb
    · rw [hmf] at h; exact absurd h (by simp)
    · rw [hmf] at h
      rcases hmt : convert_to_bitboard (PyVal.str mt) with e | mtb
      · rw [hmt] at h; exact absurd h (by simp)
      · rw [hmt] at h
        dsimp only at h
        rcases mfb with _ | mF
        · rcases mtb with _ | mT <;> exact absurd h (by simp)
        · rcases mtb with _ | mT
          · exact absurd h (by simp)
          · dsimp only at h
            obtain ⟨jf, hjf, rfl⟩ := convert_ok_bb mf mF hmf
            obtain ⟨jt, hjt, rfl⟩ := convert_ok_bb mt mT hmt
            rcases hidx : (find_valid_moves
                { b with all_pieces_bb := andNot b.all_pieces_bb (bb jf) } (bb jf)).1.piece_moved_index
              with _ | k
            · rw [hidx] at h; exact absurd h (by simp)
            · rw [hidx] at h
              dsimp only at h
              by_cases hleg : (bb jt &&&
                  (find_valid_moves { b with all_pieces_bb := andNot b.all_pieces_bb (bb jf) }
                    (bb jf)).2 == 0) = true
              · rw [if_pos hleg] at h; exact absurd h (by simp)
              · rw [if_neg hleg] at h
                simp only [Except.ok.injEq, Prod.mk.injEq, true_and] at h
                refine ⟨jf, jt, k, hjf, hjt, hidx, ?_, h.symm⟩
                rw [beq_iff_eq] at hleg
                rw [bne_iff_ne]
                exact hleg

lemma testBit_false_of_land_zero (a b : Nat) (h : a &&& b = 0) (j : Nat)
    (ha : a.testBit j = true) : b.testBit j = false := by
  have h' : (a &&& b).testBit j = false := by rw [h]; exact Nat.zero_testBit j
  rw [Nat.testBit_land, ha, Bool.true_and] at h'
  exact h'

lemma land_zero_of (a b : Nat) (h : ∀ j, a.testBit j = true → b.testBit j = false) :
    a &&& b = 0 := by
  apply Nat.eq_of_testBit_eq
  intro j
  rw [Nat.testBit_land, Nat.zero_testBit]
  cases ha : a.testBit j
  · rfl
  · rw [h j ha]; rfl

lemma list_union6_testBit (l : List Nat) (h6 : l.length = 6) (j : Nat) :
    (list_union l).testBit j = true ↔ ∃ k, k < 6 ∧ (l.getD k 0).testBit j = true := by
  obtain ⟨a0, a1, a2, a3, a4, a5, rfl⟩ :
      ∃ a0 a1 a2 a3 a4 a5, l = [a0, a1, a2, a3, a4, a5] := by
    match l, h6 with
    | [a0, a1, a2, a3, a4, a5], _ => exact ⟨a0, a1, a2, a3, a4, a5, rfl⟩
  simp only [list_union, List.foldr, Nat.testBit_lor, Nat.zero_testBit, Bool.or_false]
  constructor
  · intro h
    rcases Bool.or_eq_true_iff.mp h with h | h
    · exact ⟨0, by omega, h⟩
    rcases Bool.or_eq_true_iff.mp h with h | h
    · exact ⟨1, by omega, h⟩
    rcases Bool.or_eq_true_iff.mp h with h | h
    · exact ⟨2, by omega, h⟩
    rcases Bool.or_eq_true_iff.mp h with h | h
    · exact ⟨3, by omega, h⟩
    rcases Bool.or_eq_true_iff.mp h with h | h
    · exact ⟨4, by omega, h⟩
    · exact ⟨5, by omega, h⟩
  · rintro ⟨k, hk, hbit⟩
    interval_cases k <;> simp_all [List.getD]

/-- Replacing the mover's mask `l[k]` by `(l[k] & ~from) | to` changes the
union of the six masks to `(union & ~from) | to`, provided no other mask
holds the from-bit. -/
lemma list_union_move (l : List Nat) (h6 : l.length = 6) (k : Nat) (hk : k < 6) (jf jt : Nat)
    (hothers : ∀ i < 6, ¬i = k → (l.getD i 0).testBit jf = false) :
    list_union (l.set k ((andNot (l.getD k 0) (bb jf)) ||| bb jt)) =
      andNot (list_union l) (bb jf) ||| bb jt := by
  obtain ⟨a0, a1, a2, a3, a4, a5, rfl⟩ :
      ∃ a0 a1 a2 a3 a4 a5, l = [a0, a1, a2, a3, a4, a5] := by
    match l, h6 with
    | [a0, a1, a2, a3, a4, a5], _ => exact ⟨a0, a1, a2, a3, a4, a5, rfl⟩
  interval_cases k
  ·
    have g1 : a1.testBit jf = false := hothers 1 (by omega) (by omega)
    have g2 : a2.testBit jf = false := hothers 2 (by omega) (by omega)
    have g3 : a3.testBit jf = false := hothers 3 (by omega) (by omega)
    have g4 : a4.testBit jf = false := hothers 4 (by omega) (by omega)
    have g5 : a5.testBit jf = false := hothers 5 (by omega) (by omega)
    apply Nat.eq_of_testBit_eq
    intro j
    simp only [List.set, list_union, List.foldr, List.getD_cons_zero, List.getD_cons_succ,
      Nat.testBit_lor, testBit_andNot, testBit_bb, Nat.zero_testBit, Bool.or_false]
    by_cases hj : jf = j
    · subst hj
      simp [g1, g2, g3, g4, g5]
    · simp [hj, Bool.or_assoc, Bool.or_comm, Bool.or_left_comm]
  ·
    have g0 : a0.testBit jf = false := hothers 0 (by omega) (by omega)
    have g2 : a2.testBit jf = false := hothers 2 (by omega) (by omega)
    have g3 : a3.testBit jf = false := hothers 3 (by omega) (by omega)
    have g4 : a4.testBit jf = false := hothers 4 (by omega) (by omega)
    have g5 : a5.testBit jf = false := hothers 5 (by omega) (by omega)
    apply Nat.eq_of_testBit_eq
    intro j
    simp only [List.set, list_union, List.foldr, List.getD_cons_zero, List.getD_cons_succ,
      Nat.testBit_lor, testBit_andNot, testBit_bb, Nat.zero_testBit, Bool.or_false]
    by_cases hj : jf = j
    · subst hj
      simp [g0, g2, g3, g4, g5]
    · simp [hj, Bool.or_assoc, Bool.or_comm, Bool.or_left_comm]
  ·
    have g0 : a0.testBit jf = false := hothers 0 (by omega) (by omega)
    have g1 : a1.testBit jf = false := hothers 1 (by omega) (by omega)
    have g3 : a3.testBit jf = false := hothers 3 (by omega) (by omega)
    have g4 : a4.testBit jf = false := hothers 4 (by omega) (by omega)
    have g5 : a5.testBit jf = false := hothers 5 (by omega) (by omega)
    apply Nat.eq_of_testBit_eq
    intro j
    simp only [List.set, list_union, List.foldr, List.getD_cons_zero, List.getD_cons_succ,
      Nat.testBit_lor, testBit_andNot, testBit_bb, Nat.zero_testBit, Bool.or_false]
    by_cases hj : jf = j
    · subst hj
      simp [g0, g1, g3, g4, g5]
    · simp [hj, Bool.or_assoc, Bool.or_comm, Bool.or_left_comm]
  ·
    have g0 : a0.testBit jf = false := hothers 0 (by omega) (by omega)
    have g1 : a1.testBit jf = false := hothers 1 (by omega) (by omega)
    have g2 : a2.testBit jf = false := hothers 2 (by omega) (by omega)
    have g4 : a4.testBit jf = false := hothers 4 (by omega) (by omega)
    have g5 : a5.testBit jf = false := hothers 5 (by omega) (by omega)
    apply Nat.eq_of_testBit_eq
    intro j
    simp only [List.set, list_union, List.foldr, List.getD_cons_zero, List.getD_cons_succ,
      Nat.testBit_lor, testBit_andNot, testBit_bb, Nat.zero_testBit, Bool.or_false]
    by_cases hj : jf = j
    · subst hj
      simp [g0, g1, g2, g4, g5]
    · simp [hj, Bool.or_assoc, Bool.or_comm, Bool.or_left_comm]
  ·
    have g0 : a0.testBit jf = false := hothers 0 (by omega) (by omega)
    have g1 : a1.testBit jf = false := hothers 1 (by omega) (by omega)
    have g2 : a2.testBit jf = false := hothers 2 (by omega) (by omega)
    have g3 : a3.testBit jf = false := hothers 3 (by omega) (by omega)
    have g5 : a5.testBit jf = false := hothers 5 (by omega) (by omega)
    apply Nat.eq_of_testBit_eq
    intro j
    simp only [List.set, list_union, List.foldr, List.getD_cons_zero, List.getD_cons_succ,
      Nat.testBit_lor, testBit_andNot, testBit_bb, Nat.zero_testBit, Bool.or_false]
    by_cases hj : jf = j
    · subst hj
      simp [g0, g1, g2, g3, g5]
    · simp [hj, Bool.or_assoc, Bool.or_comm, Bool.or_left_comm]
  ·
    have g0 : a0.testBit jf = false := hothers 0 (by omega) (by omega)
    have g1 : a1.testBit jf = false := hothers 1 (by omega) (by omega)
    have g2 : a2.testBit jf = false := hothers 2 (by omega) (by omega)
    have g3 : a3.testBit jf = false := hothers 3 (by omega) (by omega)
    have g4 : a4.testBit jf = false := hothers 4 (by omega) (by omega)
    apply Nat.eq_of_testBit_eq
    intro j
    simp only [List.set, list_union, List.foldr, List.getD_cons_zero, List.getD_cons_succ,
      Nat.testBit_lor, testBit_andNot, testBit_bb, Nat.zero_testBit, Bool.or_false]
    by_cases hj : jf = j
    · subst hj
      simp [g0, g1, g2, g3, g4]
    · simp [hj, Bool.or_assoc, Bool.or_comm, Bool.or_left_comm]

/-- Clearing the to-bit from the captured mask `l[k]` changes the union of
the six masks to `union & ~to`, provided no other mask holds the to-bit. -/
lemma list_union_capture (l : List Nat) (h6 : l.length = 6) (k : Nat) (hk : k < 6) (jt : Nat)
    (hothers : ∀ i < 6, ¬i = k → (l.getD i 0).testBit jt = false) :
    list_union (l.set k (andNot (l.getD k 0) (bb jt))) = andNot (list_union l) (bb jt) := by
  obtain ⟨a0, a1, a2, a3, a4, a5, rfl⟩ :
      ∃ a0 a1 a2 a3 a4 a5, l = [a0, a1, a2, a3, a4, a5] := by
    match l, h6 with
    | [a0, a1, a2, a3, a4, a5], _ => exact ⟨a0, a1, a2, a3, a4, a5, rfl⟩
  interval_cases k
  ·
    have g1 : a1.testBit jt = false := hothers 1 (by omega) (by omega)
    have g2 : a2.testBit jt = false := hothers 2 (by omega) (by omega)
    have g3 : a3.testBit jt = false := hothers 3 (by omega) (by omega)
    have g4 : a4.testBit jt = false := hothers 4 (by omega) (by omega)
    have g5 : a5.testBit jt = false := hothers 5 (by omega) (by omega)
    apply Nat.eq_of_testBit_eq
    intro j
    simp only [List.set, list_union, List.foldr, List.getD_cons_zero, List.getD_cons_succ,
      Nat.testBit_lor, testBit_andNot, testBit_bb, Nat.zero_testBit, Bool.or_false]
    by_cases hj : jt = j
    · subst hj
      simp [g1, g2, g3, g4, g5]
    · simp [hj, Bool.or_assoc, Bool.or_comm, Bool.or_left_comm]
  ·
    have g0 : a0.testBit jt = false := hothers 0 (by omega) (by omega)
    have g2 : a2.testBit jt = false := hothers 2 (by omega) (by omega)
    have g3 : a3.testBit jt = false := hothers 3 (by omega) (by omega)
    have g4 : a4.testBit jt = false := hothers 4 (by omega) (by omega)
    have g5 : a5.testBit jt = false := hothers 5 (by omega) (by omega)
    apply Nat.eq_of_testBit_eq
    intro j
    simp only [List.set, list_union, List.foldr, List.getD_cons_zero, List.getD_cons_succ,
      Nat.testBit_lor, testBit_andNot, testBit_bb, Nat.zero_testBit, Bool.or_false]
    by_cases hj : jt = j
    · subst hj
      simp [g0, g2, g3, g4, g5]
    · simp [hj, Bool.or_assoc, Bool.or_comm, Bool.or_left_comm]
  ·
    have g0 : a0.testBit jt = false := hothers 0 (by omega) (by omega)
    have g1 : a1.testBit jt = false := hothers 1 (by omega) (by omega)
    have g3 : a3.testBit jt = false := hothers 3 (by omega) (by omega)
    have g4 : a4.testBit jt = false := hothers 4 (by omega) (by omega)
    have g5 : a5.testBit jt = false := hothers 5 (by omega) (by omega)
    apply Nat.eq_of_testBit_eq
    intro j
    simp only [List.set, list_union, List.foldr, List.getD_cons_zero, List.getD_cons_succ,
      Nat.testBit_lor, testBit_andNot, testBit_bb, Nat.zero_testBit, Bool.or_false]
    by_cases hj : jt = j
    · subst hj
      simp [g0, g1, g3, g4, g5]
    · simp [hj, Bool.or_assoc, Bool.or_comm, Bool.or_left_comm]
  ·
    have g0 : a0.testBit jt = false := hothers 0 (by omega) (by omega)
    have g1 : a1.testBit jt = false := hothers 1 (by omega) (by omega)
    have g2 : a2.testBit jt = false := hothers 2 (by omega) (by omega)
    have g4 : a4.testBit jt = false := hothers 4 (by omega) (by omega)
    have g5 : a5.testBit jt = false := hothers 5 (by omega) (by omega)
    apply Nat.eq_of_testBit_eq
    intro j
    simp only [List.set, list_union, List.foldr, List.getD_cons_zero, List.getD_cons_succ,
      Nat.testBit_lor, testBit_andNot, testBit_bb, Nat.zero_testBit, Bool.or_false]
    by_cases hj : jt = j
    · subst hj
      simp [g0, g1, g2, g4, g5]
    · simp [hj, Bool.or_assoc, Bool.or_comm, Bool.or_left_comm]
  ·
    have g0 : a0.testBit jt = false := hothers 0 (by omega) (by omega)
    have g1 : a1.testBit jt = false := hothers 1 (by omega) (by omega)
    have g2 : a2.testBit jt = false := hothers 2 (by omega) (by omega)
    have g3 : a3.testBit jt = false := hothers 3 (by omega) (by omega)
    have g5 : a5.testBit jt = false := hothers 5 (by omega) (by omega)
    apply Nat.eq_of_testBit_eq
    intro j
    simp only [List.set, list_union, List.foldr, List.getD_cons_zero, List.getD_cons_succ,
      Nat.testBit_lor, testBit_andNot, testBit_bb, Nat.zero_testBit, Bool.or_false]
    by_cases hj : jt = j
    · subst hj
      simp [g0, g1, g2, g3, g5]
    · simp [hj, Bool.or_assoc, Bool.or_comm, Bool.or_left_comm]
  ·
    have g0 : a0.testBit jt = false := hothers 0 (by omega) (by omega)
    have g1 : a1.testBit jt = false := hothers 1 (by omega) (by omega)
    have g2 : a2.testBit jt = false := hothers 2 (by omega) (by omega)
    have g3 : a3.testBit jt = false := hothers 3 (by omega) (by omega)
    have g4 : a4.testBit jt = false := hothers 4 (by omega) (by omega)
    apply Nat.eq_of_testBit_eq
    intro j
    simp only [List.set, list_union, List.foldr, List.getD_cons_zero, List.getD_cons_succ,
      Nat.testBit_lor, testBit_andNot, testBit_bb, Nat.zero_testBit, Bool.or_false]
    by_cases hj : jt = j
    · subst hj
      simp [g0, g1, g2, g3, g4]
    · simp [hj, Bool.or_assoc, Bool.or_comm, Bool.or_left_comm]

lemma all_update_nc (aw ab jf jt : Nat) (habjf : ab.testBit jf = false)
    (habjt : ab.testBit jt = false) :
    andNot (andNot (aw ||| ab) (bb jf)) (bb jf) ||| bb jt =
      (andNot aw (bb jf) ||| bb jt) ||| ab := by
  apply Nat.eq_of_testBit_eq
  intro j
  simp only [testBit_andNot, Nat.testBit_lor, testBit_bb]
  by_cases hj : jf = j
  · subst hj; simp [habjf]
  · by_cases hj2 : jt = j
    · subst hj2; simp [habjt, hj]
    · simp [hj, hj2]

lemma all_update_cap (aw ab jf jt : Nat) (habjf : ab.testBit jf = false) :
    andNot (andNot (aw ||| ab) (bb jf)) (bb jf) ||| bb jt =
      (andNot aw (bb jf) ||| bb jt) ||| andNot ab (bb jt) := by
  apply Nat.eq_of_testBit_eq
  intro j
  simp only [testBit_andNot, Nat.testBit_lor, testBit_bb]
  by_cases hj : jf = j
  · subst hj; simp [habjf]
  · by_cases hj2 : jt = j
    · subst hj2; simp [hj]
    · simp [hj, hj2]

lemma disj_nc (aw ab jf jt : Nat) (hdisj : aw &&& ab = 0) (habjt : ab.testBit jt = false) :
    (andNot aw (bb jf) ||| bb jt) &&& ab = 0 := by
  apply land_zero_of
  intro j hj
  simp only [testBit_andNot, Nat.testBit_lor, testBit_bb, Bool.or_eq_true,
    Bool.and_eq_true] at hj
  rcases hj with ⟨ha, _⟩ | hj
  · exact testBit_false_of_land_zero aw ab hdisj j ha
  · rw [← decide_eq_true_eq.mp hj]; exact habjt

lemma disj_cap (aw ab jf jt : Nat) (hdisj : aw &&& ab = 0) :
    (andNot aw (bb jf) ||| bb jt) &&& andNot ab (bb jt) = 0 := by
  apply land_zero_of
  intro j hj
  simp only [testBit_andNot, Nat.testBit_lor, testBit_bb, Bool.or_eq_true,
    Bool.and_eq_true] at hj
  simp only [testBit_andNot, testBit_bb]
  rcases hj with ⟨ha, _⟩ | hj
  · rw [testBit_false_of_land_zero aw ab hdisj j ha]; rfl
  · rw [← decide_eq_true_eq.mp hj]; simp

lemma disj_move_other (wk wi jf jt : Nat) (h : wk &&& wi = 0) (hjt : wi.testBit jt = false) :
    (andNot wk (bb jf) ||| bb jt) &&& wi = 0 := by
  apply land_zero_of
  intro j hj
  simp only [testBit_andNot, Nat.testBit_lor, testBit_bb, Bool.or_eq_true,
    Bool.and_eq_true] at hj
  rcases hj with ⟨ha, _⟩ | hj
  · exact testBit_false_of_land_zero wk wi h j ha
  · rw [← decide_eq_true_eq.mp hj]; exact hjt

lemma disj_other_move (wi wk jf jt : Nat) (h : wi &&& wk = 0) (hjt : wi.testBit jt = false) :
    wi &&& (andNot wk (bb jf) ||| bb jt) = 0 := by
  apply land_zero_of
  intro j hj
  simp only [testBit_andNot, Nat.testBit_lor, testBit_bb]
  rw [testBit_false_of_land_zero wi wk h j hj]
  by_cases hj2 : jt = j
  · subst hj2; rw [hjt] at hj; exact absurd hj (by simp)
  · simp [hj2]

lemma disj_shrink_left (x y t : Nat) (h : x &&& y = 0) : andNot x (bb t) &&& y = 0 := by
  apply land_zero_of
  intro j hj
  rw [testBit_andNot, Bool.and_eq_true] at hj
  exact testBit_false_of_land_zero x y h j hj.1

lemma disj_shrink_right (x y t : Nat) (h : x &&& y = 0) : x &&& andNot y (bb t) = 0 := by
  apply land_zero_of
  intro j hj
  rw [testBit_andNot]
  rw [testBit_false_of_land_zero x y h j hj]
  rfl

/-- The six masks of a side are pairwise disjoint. -/
def pairwise_disjoint6 (l : List Nat) : Prop :=
  ∀ i < 6, ∀ j < 6, ¬i = j → (l.getD i 0) &&& (l.getD j 0) = 0

/-- The BoardState consistency invariant of the spec: six masks per side,
pairwise disjoint; each aggregate equals the union of its side's masks;
the all-pieces mask is the union of the two aggregates; the sides are
disjoint. -/
def BoardInv (b : Board) : Prop :=
  b.white_pieces_list.length = 6 ∧ b.black_pieces_list.length = 6 ∧
  pairwise_disjoint6 b.white_pieces_list ∧ pairwise_disjoint6 b.black_pieces_list ∧
  b.all_white_pieces_bb = list_union b.white_pieces_list ∧
  b.all_black_pieces_bb = list_union b.black_pieces_list ∧
  b.all_pieces_bb = b.all_white_pieces_bb ||| b.all_black_pieces_bb ∧
  b.all_white_pieces_bb &&& b.all_black_pieces_bb = 0

/-- Board states reachable from the standard starting position through
successful `execute_move` calls and `set_next_turn` calls. -/
inductive Reachable : Board → Prop where
  | init : Reachable setup_new_board
  | step_exec (b b' : Board) (mf mt : List Char) :
      Reachable b → execute_move b mf mt = Except.ok (true, b') → Reachable b'
  | step_turn (b : Board) : Reachable b → Reachable (set_next_turn b)

lemma exec_preserves_inv (b b' : Board) (mf mt : List Char) (hInv : BoardInv b)
    (h : execute_move b mf mt = Except.ok (true, b')) : BoardInv b' := by
  obtain ⟨hlW, hlB, hdW, hdB, haw, hab, hall, hwb⟩ := hInv
  obtain ⟨jf, jt, k, hjf, hjt, hidx, hleg, rfl⟩ := execute_move_ok b b' mf mt h
  rcases find_valid_cases { b with all_pieces_bb := andNot b.all_pieces_bb (bb jf) } (bb jf)
    with ⟨hfst, hsnd⟩ | ⟨k', hk', hcond, hfst, raw, hsnd⟩
  · rw [hsnd] at hleg
    exact absurd hleg (by simp)
  · have hkk : k = k' := by
      rw [hfst] at hidx
      exact (Option.some.inj hidx).symm
    subst hkk
    rw [hsnd] at hleg
    rw [hfst]
    have hfr : (if b.current_turn = Side.White then b.all_white_pieces_bb
        else b.all_black_pieces_bb).testBit jt = false := by
      rw [bb_and_ne, testBit_andNot, Bool.and_eq_true] at hleg
      cases hx : (if b.current_turn = Side.White then b.all_white_pieces_bb
        else b.all_black_pieces_bb).testBit jt
      · rfl
      · rw [hx] at hleg; exact absurd hleg.2 (by simp)
    cases hturn : b.current_turn
    case White =>
      have hcond' : (b.white_pieces_list.getD k 0 &&& bb jf != 0) = true := by
        rw [hturn] at hcond; simpa using hcond
      have hkbit : (b.white_pieces_list.getD k 0).testBit jf = true := by
        rw [and_bb_ne] at hcond'
        exact hcond'
      have hawjt : b.all_white_pieces_bb.testBit jt = false := by
        rw [hturn] at hfr; simpa using hfr
      have hothersW : ∀ i < 6, ¬i = k →
          (b.white_pieces_list.getD i 0).testBit jf = false := fun i hi hne =>
        testBit_false_of_land_zero _ _ (hdW k hk' i hi (fun hh => hne hh.symm)) jf hkbit
      have hawjf : b.all_white_pieces_bb.testBit jf = true := by
        rw [haw]
        exact (list_union6_testBit b.white_pieces_list hlW jf).mpr ⟨k, hk', hkbit⟩
      have habjf : b.all_black_pieces_bb.testBit jf = false :=
        testBit_false_of_land_zero _ _ hwb jf hawjf
      have hWjt : ∀ i < 6, (b.white_pieces_list.getD i 0).testBit jt = false := by
        intro i hi
        cases hx : (b.white_pieces_list.getD i 0).testBit jt
        · rfl
        · have : b.all_white_pieces_bb.testBit jt = true := by
            rw [haw]
            exact (list_union6_testBit b.white_pieces_list hlW jt).mpr ⟨i, hi, hx⟩
          rw [this] at hawjt; exact absurd hawjt (by simp)
      by_cases hcap : b.all_black_pieces_bb.testBit jt = true
      · obtain ⟨k2, hk2, hbit2⟩ :=
          (list_union6_testBit b.black_pieces_list hlB jt).mp (hab ▸ hcap)
        have hothersB : ∀ i < 6, ¬i = k2 →
            (b.black_pieces_list.getD i 0).testBit jt = false := fun i hi hne =>
          testBit_false_of_land_zero _ _ (hdB k2 hk2 i hi (fun hh => hne hh.symm)) jt hbit2
        rw [update_white_capture
            (Board.mk Side.White (some k) b.piece_captured_index b.white_pieces_list
              b.black_pieces_list b.all_white_pieces_bb b.all_black_pieces_bb
              (andNot b.all_pieces_bb (bb jf)))
            k jf jt k2 rfl hlB hk2 hbit2 hothersB hcap]
        refine ⟨by simp [hlW], by simp [hlB], ?_, ?_, ?_, ?_, ?_, ?_⟩
        · intro i hi j hj hne
          by_cases hik : i = k
          · subst hik
            rw [getD_set_self _ _ _ (by omega : i < b.white_pieces_list.length),
              getD_set_ne _ _ _ _ hne]
            exact disj_move_other _ _ jf jt (hdW i hi j hj hne) (hWjt j hj)
          · rw [getD_set_ne _ _ _ _ (fun hh => hik hh.symm)]
            by_cases hjk : j = k
            · subst hjk
              rw [getD_set_self _ _ _ (by omega : j < b.white_pieces_list.length)]
              exact disj_other_move _ _ jf jt (hdW i hi j hj hne) (hWjt i hi)
            · rw [getD_set_ne _ _ _ _ (fun hh => hjk hh.symm)]
              exact hdW i hi j hj hne
        · intro i hi j hj hne
          by_cases hik : i = k2
          · subst hik
            rw [getD_set_self _ _ _ (by omega : i < b.black_pieces_list.length),
              getD_set_ne _ _ _ _ hne]
            exact disj_shrink_left _ _ jt (hdB i hi j hj hne)
          · rw [getD_set_ne _ _ _ _ (fun hh => hik hh.symm)]
            by_cases hjk : j = k2
            · subst hjk
              rw [getD_set_self _ _ _ (by omega : j < b.black_pieces_list.length)]
              exact disj_shrink_right _ _ jt (hdB i hi j hj hne)
            · rw [getD_set_ne _ _ _ _ (fun hh => hjk hh.symm)]
              exact hdB i hi j hj hne
        · rw [list_union_move b.white_pieces_list hlW k hk' jf jt hothersW, ← haw]
        · rw [list_union_capture b.black_pieces_list hlB k2 hk2 jt hothersB, ← hab]
        · rw [hall]
          exact all_update_cap _ _ jf jt habjf
        · exact disj_cap _ _ jf jt hwb
      · have hnc : b.all_black_pieces_bb.testBit jt = false := by
          cases hx : b.all_black_pieces_bb.testBit jt
          · rfl
          · exact absurd hx hcap
        rw [update_white_no_capture
            (Board.mk Side.White (some k) b.piece_captured_index b.white_pieces_list
              b.black_pieces_list b.all_white_pieces_bb b.all_black_pieces_bb
              (andNot b.all_pieces_bb (bb jf)))
            k jf jt rfl hnc]
        refine ⟨by simp [hlW], hlB, ?_, hdB, ?_, hab, ?_, ?_⟩
        · intro i hi j hj hne
          by_cases hik : i = k
          · subst hik
            rw [getD_set_self _ _ _ (by omega : i < b.white_pieces_list.length),
              getD_set_ne _ _ _ _ hne]
            exact disj_move_other _ _ jf jt (hdW i hi j hj hne) (hWjt j hj)
          · rw [getD_set_ne _ _ _ _ (fun hh => hik hh.symm)]
            by_cases hjk : j = k
            · subst hjk
              rw [getD_set_self _ _ _ (by omega : j < b.white_pieces_list.length)]
              exact disj_other_move _ _ jf jt (hdW i hi j hj hne) (hWjt i hi)
            · rw [getD_set_ne _ _ _ _ (fun hh => hjk hh.symm)]
              exact hdW i hi j hj hne
        · rw [list_union_move b.white_pieces_list hlW k hk' jf jt hothersW, ← haw]
        · rw [hall]
          exact all_update_nc _ _ jf jt habjf hnc
        · exact disj_nc _ _ jf jt hwb hnc
    case Black =>
      have hcond' : (b.black_pieces_list.getD k 0 &&& bb jf != 0) = true := by
        rw [hturn] at hcond; simpa using hcond
      have hkbit : (b.black_pieces_list.getD k 0).testBit jf = true := by
        rw [and_bb_ne] at hcond'
        exact hcond'
      have habjt : b.all_black_pieces_bb.testBit jt = false := by
        rw [hturn] at hfr; simpa using hfr
      have hbw : b.all_black_pieces_bb &&& b.all_white_pieces_bb = 0 := by
        rw [Nat.land_comm]; exact hwb
      have hothersB : ∀ i < 6, ¬i = k →
          (b.black_pieces_list.getD i 0).testBit jf = false := fun i hi hne =>
        testBit_false_of_land_zero _ _ (hdB k hk' i hi (fun hh => hne hh.symm)) jf hkbit
      have habjf : b.all_black_pieces_bb.testBit jf = true := by
        rw [hab]
        exact (list_union6_testBit b.black_pieces_list hlB jf).mpr ⟨k, hk', hkbit⟩
      have hawjf : b.all_white_pieces_bb.testBit jf = false :=
        testBit_false_of_land_zero _ _ hbw jf habjf
      have hBjt : ∀ i < 6, (b.black_pieces_list.getD i 0).testBit jt = false := by
        intro i hi
        cases hx : (b.black_pieces_list.getD i 0).testBit jt
        · rfl
        · have : b.all_black_pieces_bb.testBit jt = true := by
            rw [hab]
            exact (list_union6_testBit b.black_pieces_list hlB jt).mpr ⟨i, hi, hx⟩
          rw [this] at habjt; exact absurd habjt (by simp)
      have hallswap : b.all_pieces_bb = b.all_black_pieces_bb ||| b.all_white_pieces_bb := by
        rw [hall, Nat.lor_comm]
      by_cases hcap : b.all_white_pieces_bb.testBit jt = true
      · obtain ⟨k2, hk2, hbit2⟩ :=
          (list_union6_testBit b.white_pieces_list hlW jt).mp (haw ▸ hcap)
        have hothersW : ∀ i < 6, ¬i = k2 →
            (b.white_pieces_list.getD i 0).testBit jt = false := fun i hi hne =>
          testBit_false_of_land_zero _ _ (hdW k2 hk2 i hi (fun hh => hne hh.symm)) jt hbit2
        rw [update_black_capture
            (Board.mk Side.Black (some k) b.piece_captured_index b.white_pieces_list
              b.black_pieces_list b.all_white_pieces_bb b.all_black_pieces_bb
              (andNot b.all_pieces_bb (bb jf)))
            k jf jt k2 rfl hlW hk2 hbit2 hothersW hcap]
        dsimp only
        refine ⟨by simp [hlW], by simp [hlB], ?_, ?_, ?_, ?_, ?_, ?_⟩
        · intro i hi j hj hne
          by_cases hik : i = k2
          · subst hik
            rw [getD_set_self _ _ _ (by omega : i < b.white_pieces_list.length),
              getD_set_ne _ _ _ _ hne]
            exact disj_shrink_left _ _ jt (hdW i hi j hj hne)
          · rw [getD_set_ne _ _ _ _ (fun hh => hik hh.symm)]
            by_cases hjk : j = k2
            · subst hjk
              rw [getD_set_self _ _ _ (by omega : j < b.white_pieces_list.length)]
              exact disj_shrink_right _ _ jt (hdW i hi j hj hne)
            · rw [getD_set_ne _ _ _ _ (fun hh => hjk hh.symm)]
              exact hdW i hi j hj hne
        · intro i hi j hj hne
          by_cases hik : i = k
          · subst hik
            rw [getD_set_self _ _ _ (by omega : i < b.black_pieces_list.length),
              getD_set_ne _ _ _ _ hne]
            exact disj_move_other _ _ jf jt (hdB i hi j hj hne) (hBjt j hj)
          · rw [getD_set_ne _ _ _ _ (fun hh => hik hh.symm)]
            by_cases hjk : j = k
            · subst hjk
              rw [getD_set_self _ _ _ (by omega : j < b.black_pieces_list.length)]
              exact disj_other_move _ _ jf jt (hdB i hi j hj hne) (hBjt i hi)
            · rw [getD_set_ne _ _ _ _ (fun hh => hjk hh.symm)]
              exact hdB i hi j hj hne
        · rw [list_union_capture b.white_pieces_list hlW k2 hk2 jt hothersW, ← haw]
        · rw [list_union_move b.black_pieces_list hlB k hk' jf jt hothersB, ← hab]
        · rw [hallswap, all_update_cap _ _ jf jt hawjf]
          exact Nat.lor_comm _ _
        · rw [Nat.land_comm]
          exact disj_cap _ _ jf jt hbw
      · have hnc : b.all_white_pieces_bb.testBit jt = false := by
          cases hx : b.all_white_pieces_bb.testBit jt
          · rfl
          · exact absurd hx hcap
        rw [update_black_no_capture
            (Board.mk Side.Black (some k) b.piece_captured_index b.white_pieces_list
              b.black_pieces_list b.all_white_pieces_bb b.all_black_pieces_bb
              (andNot b.all_pieces_bb (bb jf)))
            k jf jt rfl hnc]
        dsimp only
        refine ⟨hlW, by simp [hlB], hdW, ?_, haw, ?_, ?_, ?_⟩
        · intro i hi j hj hne
          by_cases hik : i = k
          · subst hik
            rw [getD_set_self _ _ _ (by omega : i < b.black_pieces_list.length),
              getD_set_ne _ _ _ _ hne]
            exact disj_move_other _ _ jf jt (hdB i hi j hj hne) (hBjt j hj)
          · rw [getD_set_ne _ _ _ _ (fun hh => hik hh.symm)]
            by_cases hjk : j = k
            · subst hjk
              rw [getD_set_self _ _ _ (by omega : j < b.black_pieces_list.length)]
              exact disj_other_move _ _ jf jt (hdB i hi j hj hne) (hBjt i hi)
            · rw [getD_set_ne _ _ _ _ (fun hh => hjk hh.symm)]
              exact hdB i hi j hj hne
        · rw [list_union_move b.black_pieces_list hlB k hk' jf jt hothersB, ← hab]
        · rw [hallswap, all_update_nc _ _ jf jt hawjf hnc]
          exact Nat.lor_comm _ _
        · rw [Nat.land_comm]
          exact disj_nc _ _ jf jt hbw hnc

/-- C4: starting from the standard initial position, after any sequence of
successful `execute_move` and `set_next_turn` calls, the six piece masks of
each side are pairwise disjoint, each side's aggregate equals the union of
its six masks, the all-pieces mask equals the union of the two aggregates,
and the White and Black aggregates are disjoint. -/
theorem C4_state_invariants : ∀ b : Board, Reachable b → BoardInv b := by
  intro b hb
  induction hb with
  | init =>
    unfold BoardInv pairwise_disjoint6
    decide
  | step_exec b b' mf mt hr hexec ih => exact exec_preserves_inv b b' mf mt ih hexec
  | step_turn b hr ih =>
    rw [set_next_turn]
    split <;> exact ih

/-- Witness for C4: the invariant holds in the reachable position after the
successful opening move A2-A3. -/
theorem C4_state_invariants_witness : BoardInv board_after_a2_a3 :=
  C4_state_invariants board_after_a2_a3
    (Reachable.step_exec setup_new_board board_after_a2_a3 ['A', '2'] ['A', '3']
      Reachable.init rfl)
/-- Refinement of `execute_move_ok` that also returns the conversion
equations for the two square labels, pinning down the origin and
destination squares. -/
lemma execute_move_ok_conv (b b' : Board) (mf mt : List Char)
    (h : execute_move b mf mt = Except.ok (true, b')) :
    ∃ jf jt k,
      jf < 64 ∧ jt < 64 ∧
      convert_to_bitboard (PyVal.str mf) = Except.ok (some (bb jf)) ∧
      convert_to_bitboard (PyVal.str mt) = Except.ok (some (bb jt)) ∧
      (find_valid_moves { b with all_pieces_bb := andNot b.all_pieces_bb (bb jf) }
        (bb jf)).1.piece_moved_index = some k ∧
      (bb jt &&&
        (find_valid_moves { b with all_pieces_bb := andNot b.all_pieces_bb (bb jf) }
          (bb jf)).2 != 0) = true ∧
      b' = update_bitboards
        (find_valid_moves { b with all_pieces_bb := andNot b.all_pieces_bb (bb jf) }
          (bb jf)).1 k (bb jf) (bb jt) := by
  rw [execute_move] at h
  split_ifs at h
  · exact absurd h (by simp)
  · rcases hmf : convert_to_bitboard (PyVal.str mf) with e | mfb
    · rw [hmf] at h; exact absurd h (by simp)
    · rw [hmf] at h
      rcases hmt : convert_to_bitboard (PyVal.str mt) with e | mtb
      · rw [hmt] at h; exact absurd h (by simp)
      · rw [hmt] at h
        dsimp only at h
        rcases mfb with _ | mF
        · rcases mtb with _ | mT <;> exact absurd h (by simp)
        · rcases mtb with _ | mT
          · exact absurd h (by simp)
          · dsimp only at h
            obtain ⟨jf, hjf, rfl⟩ := convert_ok_bb mf mF hmf
            obtain ⟨jt, hjt, rfl⟩ := convert_ok_bb mt mT hmt
            rcases hidx : (find_valid_moves
                { b with all_pieces_bb := andNot b.all_pieces_bb (bb jf) } (bb jf)).1.piece_moved_index
              with _ | k
            · rw [hidx] at h; exact absurd h (by simp)
            · rw [hidx] at h
              dsimp only at h
              by_cases hleg : (bb jt &&&
                  (find_valid_moves { b with all_pieces_bb := andNot b.all_pieces_bb (bb jf) }
                    (bb jf)).2 == 0) = true
              · rw [if_pos hleg] at h; exact absurd h (by simp)
              · rw [if_neg hleg] at h
                simp only [Except.ok.injEq, Prod.mk.injEq, true_and] at h
                refine ⟨jf, jt, k, hjf, hjt, rfl, rfl, hidx, ?_, h.symm⟩
                rw [beq_iff_eq] at hleg
                rw [bne_iff_ne]
                exact hleg

/-- Effect of a successful `execute_move` on the opponent's masks and on
the captured-piece index, split by whether the destination square was
occupied: an occupied destination (necessarily by an opposing piece, since
legal moves exclude the mover's own occupancy) has the unique opposing
mask holding that bit identified, cleared there and in the opposing
aggregate, and its index recorded; an unoccupied destination leaves the
captured-piece index exactly as it was. -/
lemma exec_destination_effect (b b' : Board) (mf mt : List Char)
    (hInv : BoardInv b)
    (h : execute_move b mf mt = Except.ok (true, b')) :
    ∃ jt, jt < 64 ∧
      convert_to_bitboard (PyVal.str mt) = Except.ok (some (bb jt)) ∧
      (b.all_pieces_bb.testBit jt = true → ∃ k2, k2 < 6 ∧
        ((if b.current_turn = Side.White then b.black_pieces_list
          else b.white_pieces_list).getD k2 0).testBit jt = true ∧
        b'.piece_captured_index = some k2 ∧
        (if b.current_turn = Side.White then b'.black_pieces_list
          else b'.white_pieces_list) =
          (if b.current_turn = Side.White then b.black_pieces_list
            else b.white_pieces_list).set k2
            (andNot ((if b.current_turn = Side.White then b.black_pieces_list
              else b.white_pieces_list).getD k2 0) (bb jt)) ∧
        (if b.current_turn = Side.White then b'.all_black_pieces_bb
          else b'.all_white_pieces_bb) =
          andNot (if b.current_turn = Side.White then b.all_black_pieces_bb
            else b.all_white_pieces_bb) (bb jt)) ∧
      (b.all_pieces_bb.testBit jt = false →
        b'.piece_captured_index = b.piece_captured_index) := by
  obtain ⟨hlW, hlB, hdW, hdB, haw, hab, hall, hwb⟩ := hInv
  obtain ⟨jf, jt, k, hjf, hjt, hmf, hmt, hidx, hleg, rfl⟩ := execute_move_ok_conv b b' mf mt h
  rcases find_valid_cases { b with all_pieces_bb := andNot b.all_pieces_bb (bb jf) } (bb jf)
    with ⟨hfst, hsnd⟩ | ⟨k', hk', hcond, hfst, raw, hsnd⟩
  · rw [hsnd] at hleg
    exact absurd hleg (by simp)
  · have hkk : k = k' := by
      rw [hfst] at hidx
      exact (Option.some.inj hidx).symm
    subst hkk
    rw [hsnd] at hleg
    rw [hfst]
    have hfr : (if b.current_turn = Side.White then b.all_white_pieces_bb
        else b.all_black_pieces_bb).testBit jt = false := by
      rw [bb_and_ne, testBit_andNot, Bool.and_eq_true] at hleg
      cases hx : (if b.current_turn = Side.White then b.all_white_pieces_bb
        else b.all_black_pieces_bb).testBit jt
      · rfl
      · rw [hx] at hleg; exact absurd hleg.2 (by simp)
    refine ⟨jt, hjt, hmt, ?_, ?_⟩
    · intro hocc
      cases hturn : b.current_turn
      case White =>
        have hawjt : b.all_white_pieces_bb.testBit jt = false := by
          rw [hturn] at hfr; simpa using hfr
        have hcap : b.all_black_pieces_bb.testBit jt = true := by
          rw [hall, Nat.testBit_lor, hawjt, Bool.false_or] at hocc
          exact hocc
        obtain ⟨k2, hk2, hbit2⟩ :=
          (list_union6_testBit b.black_pieces_list hlB jt).mp (hab ▸ hcap)
        have hothersB : ∀ i < 6, ¬i = k2 →
            (b.black_pieces_list.getD i 0).testBit jt = false := fun i hi hne =>
          testBit_false_of_land_zero _ _ (hdB k2 hk2 i hi (fun hh => hne hh.symm)) jt hbit2
        rw [update_white_capture
            (Board.mk Side.White (some k) b.piece_captured_index b.white_pieces_list
              b.black_pieces_list b.all_white_pieces_bb b.all_black_pieces_bb
              (andNot b.all_pieces_bb (bb jf)))
            k jf jt k2 rfl hlB hk2 hbit2 hothersB hcap]
        exact ⟨k2, hk2, hbit2, rfl, rfl, rfl⟩
      case Black =>
        have habjt : b.all_black_pieces_bb.testBit jt = false := by
          rw [hturn] at hfr; simpa using hfr
        have hcap : b.all_white_pieces_bb.testBit jt = true := by
          rw [hall, Nat.testBit_lor, habjt, Bool.or_false] at hocc
          exact hocc
        obtain ⟨k2, hk2, hbit2⟩ :=
          (list_union6_testBit b.white_pieces_list hlW jt).mp (haw ▸ hcap)
        have hothersW : ∀ i < 6, ¬i = k2 →
            (b.white_pieces_list.getD i 0).testBit jt = false := fun i hi hne =>
          testBit_false_of_land_zero _ _ (hdW k2 hk2 i hi (fun hh => hne hh.symm)) jt hbit2
        rw [update_black_capture
            (Board.mk Side.Black (some k) b.piece_captured_index b.white_pieces_list
              b.black_pieces_list b.all_white_pieces_bb b.all_black_pieces_bb
              (andNot b.all_pieces_bb (bb jf)))
            k jf jt k2 rfl hlW hk2 hbit2 hothersW hcap]
        exact ⟨k2, hk2, hbit2, rfl, rfl, rfl⟩
    · intro hnocc
      cases hturn : b.current_turn
      case White =>
        have hnc : b.all_black_pieces_bb.testBit jt = false := by
          rw [hall, Nat.testBit_lor] at hnocc
          cases hx : b.all_black_pieces_bb.testBit jt
          · rfl
          · rw [hx] at hnocc; simp at hnocc
        rw [update_white_no_capture
            (Board.mk Side.White (some k) b.piece_captured_index b.white_pieces_list
              b.black_pieces_list b.all_white_pieces_bb b.all_black_pieces_bb
              (andNot b.all_pieces_bb (bb jf)))
            k jf jt rfl hnc]
      case Black =>
        have hnc : b.all_white_pieces_bb.testBit jt = false := by
          rw [hall, Nat.testBit_lor] at hnocc
          cases hx : b.all_white_pieces_bb.testBit jt
          · rfl
          · rw [hx] at hnocc; simp at hnocc
        rw [update_black_no_capture
            (Board.mk Side.Black (some k) b.piece_captured_index b.white_pieces_list
              b.black_pieces_list b.all_white_pieces_bb b.all_black_pieces_bb
              (andNot b.all_pieces_bb (bb jf)))
            k jf jt rfl hnc]

/-- A position with a White Rook on A1, a Black Rook on A8 and a Black
pawn on B7: the capture-reporting scenario of the specification. -/
def capture_demo_board : Board :=
  { current_turn := Side.White, piece_moved_index := none, piece_captured_index := none,
    white_pieces_list := [0, bb 0, 0, 0, 0, 0],
    black_pieces_list := [bb 49, bb 56, 0, 0, 0, 0],
    all_white_pieces_bb := bb 0,
    all_black_pieces_bb := bb 49 ||| bb 56,
    all_pieces_bb := bb 0 ||| (bb 49 ||| bb 56) }

/-- The board the engine produces for the capturing move A1xA8 in
`capture_demo_board`. -/
def capture_demo_after : Board :=
  match execute_move capture_demo_board ['A', '1'] ['A', '8'] with
  | Except.ok p => p.2
  | Except.error _ => capture_demo_board

/-- C6: on every successful `execute_move` of a consistent board whose
destination square is occupied (necessarily by an opposing piece), the
update identifies the opposing piece kind whose mask contains the
destination bit, clears that bit from that mask and from the opposing
aggregate, and records that kind's index as captured; on a successful
move to an unoccupied destination no capture is recorded (the index is
left as it was).  Concretely, White Rook A1xA8 against a Black Rook on A8
succeeds, reports the captured kind Rook, and leaves Black's Rook mask
without the A8 bit. -/
theorem C6_capture_reporting :
    (∀ b b' mf mt, BoardInv b → execute_move b mf mt = Except.ok (true, b') →
      ∃ jt, jt < 64 ∧
        convert_to_bitboard (PyVal.str mt) = Except.ok (some (bb jt)) ∧
        (b.all_pieces_bb.testBit jt = true → ∃ k2, k2 < 6 ∧
          ((if b.current_turn = Side.White then b.black_pieces_list
            else b.white_pieces_list).getD k2 0).testBit jt = true ∧
          b'.piece_captured_index = some k2 ∧
          (if b.current_turn = Side.White then b'.black_pieces_list
            else b'.white_pieces_list) =
            (if b.current_turn = Side.White then b.black_pieces_list
              else b.white_pieces_list).set k2
              (andNot ((if b.current_turn = Side.White then b.black_pieces_list
                else b.white_pieces_list).getD k2 0) (bb jt)) ∧
          (if b.current_turn = Side.White then b'.all_black_pieces_bb
            else b'.all_white_pieces_bb) =
            andNot (if b.current_turn = Side.White then b.all_black_pieces_bb
              else b.all_white_pieces_bb) (bb jt)) ∧
        (b.all_pieces_bb.testBit jt = false →
          b'.piece_captured_index = b.piece_captured_index)) ∧
    execute_move capture_demo_board ['A', '1'] ['A', '8'] =
      Except.ok (true, capture_demo_after) ∧
    (get_piece_captured capture_demo_after).1 = some PieceName.Rook ∧
    (capture_demo_after.black_pieces_list.getD 1 0).testBit 56 = false :=
  ⟨fun b b' mf mt hInv h => exec_destination_effect b b' mf mt hInv h,
   rfl, rfl, by decide⟩

/-- Witness for C6: the general part applied to the concrete Rook-takes-
Rook position, with both hypotheses discharged by computation. -/
theorem C6_capture_reporting_witness :
    BoardInv capture_demo_board ∧
    execute_move capture_demo_board ['A', '1'] ['A', '8'] =
      Except.ok (true, capture_demo_after) ∧
    (∃ jt, jt < 64 ∧
      convert_to_bitboard (PyVal.str ['A', '8']) = Except.ok (some (bb jt)) ∧
      (capture_demo_board.all_pieces_bb.testBit jt = true → ∃ k2, k2 < 6 ∧
        ((if capture_demo_board.current_turn = Side.White then capture_demo_board.black_pieces_list
          else capture_demo_board.white_pieces_list).getD k2 0).testBit jt = true ∧
        capture_demo_after.piece_captured_index = some k2 ∧
        (if capture_demo_board.current_turn = Side.White then capture_demo_after.black_pieces_list
          else capture_demo_after.white_pieces_list) =
          (if capture_demo_board.current_turn = Side.White then capture_demo_board.black_pieces_list
            else capture_demo_board.white_pieces_list).set k2
            (andNot ((if capture_demo_board.current_turn = Side.White then capture_demo_board.black_pieces_list
              else capture_demo_board.white_pieces_list).getD k2 0) (bb jt)) ∧
        (if capture_demo_board.current_turn = Side.White then capture_demo_after.all_black_pieces_bb
          else capture_demo_after.all_white_pieces_bb) =
          andNot (if capture_demo_board.current_turn = Side.White then capture_demo_board.all_black_pieces_bb
            else capture_demo_board.all_white_pieces_bb) (bb jt)) ∧
      (capture_demo_board.all_pieces_bb.testBit jt = false →
        capture_demo_after.piece_captured_index = capture_demo_board.piece_captured_index)) :=
  ⟨by unfold BoardInv pairwise_disjoint6; decide, rfl,
   C6_capture_reporting.1 capture_demo_board capture_demo_after ['A', '1'] ['A', '8']
     (by unfold BoardInv pairwise_disjoint6; decide) rfl⟩

/-- The position after the unread capture A1xA8, with the turn passed to
Black (as `set_next_turn` does between moves). -/
def stale_board2 : Board := set_next_turn capture_demo_after

/-- The board after Black then plays the non-capturing pawn move B7-B6. -/
def stale_board3 : Board :=
  match execute_move stale_board2 ['B', '7'] ['B', '6'] with
  | Except.ok p => p.2
  | Except.error _ => stale_board2

/-- C10: a successful `execute_move` to an unoccupied destination leaves
the stored captured-piece index unchanged rather than clearing it.
Concretely: after the capture A1xA8 stores index 1 (Rook) and it is never
read, Black's non-capturing B7-B6 succeeds with the destination square
empty, the stored index is still 1, and `get_piece_captured` now reports
the Rook captured by the earlier move instead of none. -/
theorem C10_stale_captured_index :
    (∀ b b' mf mt, BoardInv b → execute_move b mf mt = Except.ok (true, b') →
      ∃ jt, jt < 64 ∧
        convert_to_bitboard (PyVal.str mt) = Except.ok (some (bb jt)) ∧
        (b.all_pieces_bb.testBit jt = false →
          b'.piece_captured_index = b.piece_captured_index)) ∧
    capture_demo_after.piece_captured_index = some 1 ∧
    execute_move stale_board2 ['B', '7'] ['B', '6'] =
      Except.ok (true, stale_board3) ∧
    stale_board2.all_pieces_bb.testBit 41 = false ∧
    stale_board3.piece_captured_index = some 1 ∧
    (get_piece_captured stale_board3).1 = some PieceName.Rook :=
  ⟨fun b b' mf mt hInv h => by
      obtain ⟨jt, h1, h2, _, h4⟩ := exec_destination_effect b b' mf mt hInv h
      exact ⟨jt, h1, h2, h4⟩,
   rfl, rfl, by decide, rfl, rfl⟩

/-- Witness for C10: the general part applied to the concrete stale-read
scenario, with both hypotheses discharged by computation. -/
theorem C10_stale_captured_index_witness :
    BoardInv stale_board2 ∧
    execute_move stale_board2 ['B', '7'] ['B', '6'] =
      Except.ok (true, stale_board3) ∧
    (∃ jt, jt < 64 ∧
      convert_to_bitboard (PyVal.str ['B', '6']) = Except.ok (some (bb jt)) ∧
      (stale_board2.all_pieces_bb.testBit jt = false →
        stale_board3.piece_captured_index = stale_board2.piece_captured_index)) :=
  ⟨by unfold BoardInv pairwise_disjoint6; decide, rfl,
   C10_stale_captured_index.1 stale_board2 stale_board3 ['B', '7'] ['B', '6']
     (by unfold BoardInv pairwise_disjoint6; decide) rfl⟩
lemma capture_step_keep_turn (tb : Nat) (b : Board) (i : Nat) :
    (capture_step tb b i).current_turn = b.current_turn := by
  rw [capture_step]
  dsimp only
  split_ifs <;> rfl

lemma capture_step_keep_moved (tb : Nat) (b : Board) (i : Nat) :
    (capture_step tb b i).piece_moved_index = b.piece_moved_index := by
  rw [capture_step]
  dsimp only
  split_ifs <;> rfl

lemma capture_step_white_list (tb : Nat) (b : Board) (i : Nat)
    (h : b.current_turn = Side.White) :
    (capture_step tb b i).white_pieces_list = b.white_pieces_list := by
  rw [capture_step]
  dsimp only
  split_ifs with h1 h2 h3 <;> first | rfl | exact absurd h h1

lemma capture_step_black_list (tb : Nat) (b : Board) (i : Nat)
    (h : b.current_turn = Side.Black) :
    (capture_step tb b i).black_pieces_list = b.black_pieces_list := by
  rw [capture_step]
  dsimp only
  split_ifs with h1 h2 h3 <;>
    first | rfl | (rw [h] at h1; exact absurd h1 (by decide))

lemma capture_step_wlen (tb : Nat) (b : Board) (i : Nat) :
    (capture_step tb b i).white_pieces_list.length = b.white_pieces_list.length := by
  rw [capture_step]
  dsimp only
  split_ifs <;> simp

lemma capture_step_blen (tb : Nat) (b : Board) (i : Nat) :
    (capture_step tb b i).black_pieces_list.length = b.black_pieces_list.length := by
  rw [capture_step]
  dsimp only
  split_ifs <;> simp

lemma capture_fold_white (tb : Nat) (l : List Nat) :
    ∀ b : Board, b.current_turn = Side.White →
      (l.foldl (capture_step tb) b).white_pieces_list = b.white_pieces_list := by
  induction l with
  | nil => intro b h; rfl
  | cons a l ih =>
    intro b h
    rw [List.foldl_cons,
      ih (capture_step tb b a) ((capture_step_keep_turn tb b a).trans h),
      capture_step_white_list tb b a h]

lemma capture_fold_black (tb : Nat) (l : List Nat) :
    ∀ b : Board, b.current_turn = Side.Black →
      (l.foldl (capture_step tb) b).black_pieces_list = b.black_pieces_list := by
  induction l with
  | nil => intro b h; rfl
  | cons a l ih =>
    intro b h
    rw [List.foldl_cons,
      ih (capture_step tb b a) ((capture_step_keep_turn tb b a).trans h),
      capture_step_black_list tb b a h]

lemma capture_fold_wlen (tb : Nat) (l : List Nat) :
    ∀ b : Board,
      (l.foldl (capture_step tb) b).white_pieces_list.length = b.white_pieces_list.length := by
  induction l with
  | nil => intro b; rfl
  | cons a l ih =>
    intro b
    rw [List.foldl_cons, ih (capture_step tb b a), capture_step_wlen tb b a]

lemma capture_fold_blen (tb : Nat) (l : List Nat) :
    ∀ b : Board,
      (l.foldl (capture_step tb) b).black_pieces_list.length = b.black_pieces_list.length := by
  induction l with
  | nil => intro b; rfl
  | cons a l ih =>
    intro b
    rw [List.foldl_cons, ih (capture_step tb b a), capture_step_blen tb b a]

lemma capture_fold_moved (tb : Nat) (l : List Nat) :
    ∀ b : Board, (l.foldl (capture_step tb) b).piece_moved_index = b.piece_moved_index := by
  induction l with
  | nil => intro b; rfl
  | cons a l ih =>
    intro b
    rw [List.foldl_cons, ih (capture_step tb b a), capture_step_keep_moved tb b a]

/-- `update_bitboards` never changes the stored moved-piece index. -/
lemma update_bitboards_moved (b : Board) (k : Nat) (f t : Nat) :
    (update_bitboards b k f t).piece_moved_index = b.piece_moved_index := by
  rw [update_bitboards]
  dsimp only
  split_ifs <;> (try rw [capture_fold_moved t (List.range 6)]) <;> rfl

/-- `update_bitboards` preserves the length of White's piece list. -/
lemma update_bitboards_wlen (b : Board) (k : Nat) (f t : Nat) :
    (update_bitboards b k f t).white_pieces_list.length = b.white_pieces_list.length := by
  rw [update_bitboards]
  dsimp only
  split_ifs <;> (try rw [capture_fold_wlen t (List.range 6)]) <;> simp

/-- `update_bitboards` preserves the length of Black's piece list. -/
lemma update_bitboards_blen (b : Board) (k : Nat) (f t : Nat) :
    (update_bitboards b k f t).black_pieces_list.length = b.black_pieces_list.length := by
  rw [update_bitboards]
  dsimp only
  split_ifs <;> (try rw [capture_fold_blen t (List.range 6)]) <;> simp

/-- On White's turn `update_bitboards` replaces White's moved mask and
leaves the rest of White's list alone. -/
lemma update_mover_white (b : Board) (k : Nat) (f t : Nat)
    (h : b.current_turn = Side.White) :
    (update_bitboards b k f t).white_pieces_list =
      b.white_pieces_list.set k ((andNot (b.white_pieces_list.getD k 0) f) ||| t) := by
  rw [update_bitboards]
  simp only [h, eq_self_iff_true, if_true]
  split_ifs
  · rw [capture_fold_white t (List.range 6)]
    all_goals rfl
  · rfl

/-- On Black's turn `update_bitboards` replaces Black's moved mask and
leaves the rest of Black's list alone. -/
lemma update_mover_black (b : Board) (k : Nat) (f t : Nat)
    (h : b.current_turn = Side.Black) :
    (update_bitboards b k f t).black_pieces_list =
      b.black_pieces_list.set k ((andNot (b.black_pieces_list.getD k 0) f) ||| t) := by
  rw [update_bitboards]
  simp only [h, reduceCtorEq, if_false]
  split_ifs
  · rw [capture_fold_black t (List.range 6)]
    all_goals rfl
  · rfl

lemma ne_zero_of_testBit (x j : Nat) (h : x.testBit j = true) : ¬x = 0 := by
  intro h0
  rw [h0, Nat.zero_testBit] at h
  exact absurd h (by simp)

/-- A rejected `execute_move` returns a board with both piece lists
untouched (only the all-pieces mask and the transient moved index can
differ). -/
lemma exec_fail_frame (b b1 : Board) (mf mt : List Char)
    (h : execute_move b mf mt = Except.ok (false, b1)) :
    b1.white_pieces_list = b.white_pieces_list ∧
    b1.black_pieces_list = b.black_pieces_list := by
  rw [execute_move] at h
  split_ifs at h
  · simp only [Except.ok.injEq, Prod.mk.injEq, true_and] at h
    rw [← h]
    exact ⟨rfl, rfl⟩
  · rcases hmf : convert_to_bitboard (PyVal.str mf) with e | mfb
    · rw [hmf] at h; exact absurd h (by simp)
    · rw [hmf] at h
      rcases hmt : convert_to_bitboard (PyVal.str mt) with e | mtb
      · rw [hmt] at h; exact absurd h (by simp)
      · rw [hmt] at h
        dsimp only at h
        rcases mfb with _ | mF
        · rcases mtb with _ | mT <;>
            · simp only [Except.ok.injEq, Prod.mk.injEq, true_and] at h
              rw [← h]
              exact ⟨rfl, rfl⟩
        · rcases mtb with _ | mT
          · simp only [Except.ok.injEq, Prod.mk.injEq, true_and] at h
            rw [← h]
            exact ⟨rfl, rfl⟩
          · dsimp only at h
            rcases hidx : (find_valid_moves
                { b with all_pieces_bb := andNot b.all_pieces_bb mF } mF).1.piece_moved_index
              with _ | k
            · rw [hidx] at h
              dsimp only at h
              simp only [Except.ok.injEq, Prod.mk.injEq, true_and] at h
              rcases find_valid_cases { b with all_pieces_bb := andNot b.all_pieces_bb mF } mF
                with ⟨hfst, _⟩ | ⟨k', _, _, hfst, _, _⟩ <;>
                · rw [hfst] at h
                  rw [← h]
                  exact ⟨rfl, rfl⟩
            · rw [hidx] at h
              dsimp only at h
              split_ifs at h with hleg
              · simp only [Except.ok.injEq, Prod.mk.injEq, true_and] at h
                rcases find_valid_cases { b with all_pieces_bb := andNot b.all_pieces_bb mF } mF
                  with ⟨hfst, _⟩ | ⟨k', _, _, hfst, _, _⟩ <;>
                  · rw [hfst] at h
                    rw [← h]
                    exact ⟨rfl, rfl⟩
              · exact absurd h (by simp)

/-- A successful `execute_move` from a position where all twelve piece
masks are nonempty leaves the mover's side with all six masks nonempty
(the moved mask keeps the destination bit; the capture scan only touches
the opponent), keeps both lists at length 6, and leaves the moved-piece
index set. -/
lemma exec_success_mover (b b' : Board) (mf mt : List Char)
    (hW6 : b.white_pieces_list.length = 6)
    (hB6 : b.black_pieces_list.length = 6)
    (hWnz : ∀ i < 6, ¬b.white_pieces_list.getD i 0 = 0)
    (hBnz : ∀ i < 6, ¬b.black_pieces_list.getD i 0 = 0)
    (h : execute_move b mf mt = Except.ok (true, b')) :
    b'.white_pieces_list.length = 6 ∧
    b'.black_pieces_list.length = 6 ∧
    ((∀ i < 6, ¬b'.white_pieces_list.getD i 0 = 0) ∨
     (∀ i < 6, ¬b'.black_pieces_list.getD i 0 = 0)) ∧
    ∃ k, b'.piece_moved_index = some k := by
  obtain ⟨jf, jt, k, hjf, hjt, hidx, hleg, rfl⟩ := execute_move_ok b b' mf mt h
  rcases find_valid_cases { b with all_pieces_bb := andNot b.all_pieces_bb (bb jf) } (bb jf)
    with ⟨hfst, hsnd⟩ | ⟨k', hk', hcond, hfst, raw, hsnd⟩
  · rw [hsnd] at hleg
    exact absurd hleg (by simp)
  · have hkk : k = k' := by
      rw [hfst] at hidx
      exact (Option.some.inj hidx).symm
    subst hkk
    rw [hfst]
    refine ⟨?_, ?_, ?_, k, ?_⟩
    · rw [update_bitboards_wlen]
      exact hW6
    · rw [update_bitboards_blen]
      exact hB6
    · cases hturn : b.current_turn
      case White =>
        left
        rw [update_mover_white
          (Board.mk Side.White (some k) b.piece_captured_index b.white_pieces_list
            b.black_pieces_list b.all_white_pieces_bb b.all_black_pieces_bb
            (andNot b.all_pieces_bb (bb jf)))
          k (bb jf) (bb jt) rfl]
        intro i hi
        by_cases hik : i = k
        · subst hik
          rw [getD_set_self _ _ _ (by rw [hW6]; omega : i < b.white_pieces_list.length)]
          apply ne_zero_of_testBit _ jt
          rw [Nat.testBit_lor, testBit_bb]
          simp
        · rw [getD_set_ne _ _ _ _ (fun hh => hik hh.symm)]
          exact hWnz i hi
      case Black =>
        right
        rw [update_mover_black
          (Board.mk Side.Black (some k) b.piece_captured_index b.white_pieces_list
            b.black_pieces_list b.all_white_pieces_bb b.all_black_pieces_bb
            (andNot b.all_pieces_bb (bb jf)))
          k (bb jf) (bb jt) rfl]
        intro i hi
        by_cases hik : i = k
        · subst hik
          rw [getD_set_self _ _ _ (by rw [hB6]; omega : i < b.black_pieces_list.length)]
          apply ne_zero_of_testBit _ jt
          rw [Nat.testBit_lor, testBit_bb]
          simp
        · rw [getD_set_ne _ _ _ _ (fun hh => hik hh.symm)]
          exact hBnz i hi
    · rw [update_bitboards_moved]

lemma list6_any_zero (l : List Nat) (h6 : l.length = 6) :
    (l.any (fun x => x == 0)) = true ↔ ∃ i < 6, l.getD i 0 = 0 := by
  obtain ⟨a0, a1, a2, a3, a4, a5, rfl⟩ :
      ∃ a0 a1 a2 a3 a4 a5, l = [a0, a1, a2, a3, a4, a5] := by
    match hl : l, h6 with
    | [a0, a1, a2, a3, a4, a5], _ => exact ⟨a0, a1, a2, a3, a4, a5, rfl⟩
  constructor
  · intro h
    simp only [List.any_cons, List.any_nil, Bool.or_eq_true, beq_iff_eq, Bool.or_false] at h
    rcases h with h | h | h | h | h | h
    · exact ⟨0, by omega, h⟩
    · exact ⟨1, by omega, h⟩
    · exact ⟨2, by omega, h⟩
    · exact ⟨3, by omega, h⟩
    · exact ⟨4, by omega, h⟩
    · exact ⟨5, by omega, h⟩
  · rintro ⟨i, hi, h0⟩
    simp only [List.any_cons, List.any_nil, Bool.or_eq_true, beq_iff_eq, Bool.or_false]
    interval_cases i <;> simp_all [List.getD]

lemma get_piece_captured_lists (x : Board) :
    (get_piece_captured x).2.white_pieces_list = x.white_pieces_list ∧
    (get_piece_captured x).2.black_pieces_list = x.black_pieces_list := by
  cases hc : x.piece_captured_index <;> simp [get_piece_captured, hc]

lemma set_next_turn_lists (x : Board) :
    (set_next_turn x).white_pieces_list = x.white_pieces_list ∧
    (set_next_turn x).black_pieces_list = x.black_pieces_list := by
  rw [set_next_turn]
  split_ifs <;> exact ⟨rfl, rfl⟩

/-- The length and no-double-loss invariant maintained by `make_move`:
both piece lists keep six entries, and never do both sides simultaneously
have an empty piece-kind mask. -/
def GameInv (cv : ChessVar) : Prop :=
  cv.board.white_pieces_list.length = 6 ∧ cv.board.black_pieces_list.length = 6 ∧
  ¬((∃ i < 6, cv.board.white_pieces_list.getD i 0 = 0) ∧
    (∃ i < 6, cv.board.black_pieces_list.getD i 0 = 0))

/-- Game states reachable from a fresh `ChessVar` through `make_move`
calls (successful or rejected). -/
inductive CVReach : ChessVar → Prop where
  | init : CVReach ChessVar.new
  | step (cv cv' : ChessVar) (mf mt : List Char) (r : Bool) :
      CVReach cv → make_move cv mf mt = Except.ok (r, cv') → CVReach cv'

lemma unfinished_nonzero (cv : ChessVar)
    (hW6 : cv.board.white_pieces_list.length = 6)
    (hB6 : cv.board.black_pieces_list.length = 6)
    (h : get_game_state cv = GameState.UNFINISHED) :
    (∀ i < 6, ¬cv.board.white_pieces_list.getD i 0 = 0) ∧
    (∀ i < 6, ¬cv.board.black_pieces_list.getD i 0 = 0) := by
  rw [get_game_state] at h
  split_ifs at h with h1 h2
  constructor
  · intro i hi h0
    exact h1 ((list6_any_zero _ hW6).mpr ⟨i, hi, h0⟩)
  · intro i hi h0
    exact h2 ((list6_any_zero _ hB6).mpr ⟨i, hi, h0⟩)

/-- The three ways a `make_move` call can return: rejected by the
game-over gate (state unchanged), rejected by `execute_move` (board
swapped for the returned one), or a successful move from an unfinished
position (piece lists as `execute_move` produced them). -/
lemma make_move_cases (cv cv' : ChessVar) (mf mt : List Char) (r : Bool)
    (h : make_move cv mf mt = Except.ok (r, cv')) :
    cv' = cv ∨
    (∃ b1, execute_move cv.board mf mt = Except.ok (false, b1) ∧ cv'.board = b1) ∨
    (∃ b1, execute_move cv.board mf mt = Except.ok (true, b1) ∧
      get_game_state cv = GameState.UNFINISHED ∧
      cv'.board.white_pieces_list = b1.white_pieces_list ∧
      cv'.board.black_pieces_list = b1.black_pieces_list) := by
  rw [make_move] at h
  split_ifs at h with hg
  · left
    simp only [Except.ok.injEq, Prod.mk.injEq] at h
    exact h.2.symm
  · have hg' : get_game_state cv = GameState.UNFINISHED := not_ne_iff.mp hg
    rcases hex : execute_move cv.board mf mt with e | ⟨s, b1⟩
    · rw [hex] at h; exact absurd h (by simp)
    · rw [hex] at h
      cases s
      · dsimp only at h
        simp only [Except.ok.injEq, Prod.mk.injEq] at h
        right; left
        refine ⟨b1, rfl, ?_⟩
        rw [← h.2]
      · dsimp only at h
        rcases hpm : b1.piece_moved_index with _ | k
        · rw [get_piece_moved, hpm] at h
          dsimp only at h
          exact absurd h (by simp)
        · rw [get_piece_moved, hpm] at h
          dsimp only at h
          simp only [Except.ok.injEq, Prod.mk.injEq] at h
          right; right
          refine ⟨b1, rfl, hg', ?_, ?_⟩
          · rw [← h.2]
            exact (set_next_turn_lists _).1.trans (get_piece_captured_lists _).1
          · rw [← h.2]
            exact (set_next_turn_lists _).2.trans (get_piece_captured_lists _).2

lemma cvreach_inv (cv : ChessVar) (h : CVReach cv) : GameInv cv := by
  induction h with
  | init =>
    unfold GameInv
    decide
  | step cv cv' mf mt r hr hmm ih =>
    obtain ⟨hW6, hB6, hnb⟩ := ih
    rcases make_move_cases cv cv' mf mt r hmm with rfl | ⟨b1, hex, hb⟩ | ⟨b1, hex, hg, hbw, hbb⟩
    · exact ⟨hW6, hB6, hnb⟩
    · obtain ⟨hfw, hfb⟩ := exec_fail_frame cv.board b1 mf mt hex
      refine ⟨?_, ?_, ?_⟩
      · rw [hb, hfw]; exact hW6
      · rw [hb, hfb]; exact hB6
      · rw [hb, hfw, hfb]; exact hnb
    · obtain ⟨hWnz, hBnz⟩ := unfinished_nonzero cv hW6 hB6 hg
      obtain ⟨hW6', hB6', hdisj, _⟩ :=
        exec_success_mover cv.board b1 mf mt hW6 hB6 hWnz hBnz hex
      refine ⟨?_, ?_, ?_⟩
      · rw [hbw]; exact hW6'
      · rw [hbb]; exact hB6'
      · rw [hbw, hbb]
        rintro ⟨⟨i, hi, h0w⟩, ⟨j, hj, h0b⟩⟩
        rcases hdisj with hd | hd
        · exact hd i hi h0w
        · exact hd j hj h0b

lemma game_state_char (cv : ChessVar)
    (hW6 : cv.board.white_pieces_list.length = 6)
    (hB6 : cv.board.black_pieces_list.length = 6)
    (hnb : ¬((∃ i < 6, cv.board.white_pieces_list.getD i 0 = 0) ∧
            (∃ i < 6, cv.board.black_pieces_list.getD i 0 = 0))) :
    (get_game_state cv = GameState.BLACK_WON ↔
      ∃ i < 6, cv.board.white_pieces_list.getD i 0 = 0) ∧
    (get_game_state cv = GameState.WHITE_WON ↔
      ∃ i < 6, cv.board.black_pieces_list.getD i 0 = 0) ∧
    (get_game_state cv = GameState.UNFINISHED ↔
      ∀ i < 6, ¬cv.board.white_pieces_list.getD i 0 = 0 ∧
        ¬cv.board.black_pieces_list.getD i 0 = 0) := by
  rw [get_game_state]
  split_ifs with h1 h2
  · have hexW := (list6_any_zero _ hW6).mp h1
    refine ⟨⟨fun _ => hexW, fun _ => rfl⟩, ⟨?_, ?_⟩, ⟨?_, ?_⟩⟩
    · intro hh; exact absurd hh (by decide)
    · intro hexB; exact absurd ⟨hexW, hexB⟩ hnb
    · intro hh; exact absurd hh (by decide)
    · intro hall
      obtain ⟨i, hi, h0⟩ := hexW
      exact absurd h0 (hall i hi).1
  · have hexB := (list6_any_zero _ hB6).mp h2
    have hnoW : ¬∃ i < 6, cv.board.white_pieces_list.getD i 0 = 0 := fun hx =>
      h1 ((list6_any_zero _ hW6).mpr hx)
    refine ⟨⟨?_, ?_⟩, ⟨fun _ => hexB, fun _ => rfl⟩, ⟨?_, ?_⟩⟩
    · intro hh; exact absurd hh (by decide)
    · intro hx; exact absurd hx hnoW
    · intro hh; exact absurd hh (by decide)
    · intro hall
      obtain ⟨i, hi, h0⟩ := hexB
      exact absurd h0 (hall i hi).2
  · have hnoW : ¬∃ i < 6, cv.board.white_pieces_list.getD i 0 = 0 := fun hx =>
      h1 ((list6_any_zero _ hW6).mpr hx)
    have hnoB : ¬∃ i < 6, cv.board.black_pieces_list.getD i 0 = 0 := fun hx =>
      h2 ((list6_any_zero _ hB6).mpr hx)
    refine ⟨⟨?_, ?_⟩, ⟨?_, ?_⟩, ⟨fun _ => ?_, fun _ => rfl⟩⟩
    · intro hh; exact absurd hh (by decide)
    · intro hx; exact absurd hx hnoW
    · intro hh; exact absurd hh (by decide)
    · intro hx; exact absurd hx hnoB
    · intro i hi
      exact ⟨fun h0 => hnoW ⟨i, hi, h0⟩, fun h0 => hnoB ⟨i, hi, h0⟩⟩

/-- C8: in every game state reachable through `make_move`, the game-state
query reports Black the winner exactly when one of White's six piece-kind
masks is zero, White the winner exactly when one of Black's six masks is
zero, and unfinished exactly when all twelve masks are nonzero (no
reachable state has empty masks on both sides at once, so the
white-list-first scan order never hides a winner). -/
theorem C8_game_state_winner (cv : ChessVar) (h : CVReach cv) :
    (get_game_state cv = GameState.BLACK_WON ↔
      ∃ i < 6, cv.board.white_pieces_list.getD i 0 = 0) ∧
    (get_game_state cv = GameState.WHITE_WON ↔
      ∃ i < 6, cv.board.black_pieces_list.getD i 0 = 0) ∧
    (get_game_state cv = GameState.UNFINISHED ↔
      ∀ i < 6, ¬cv.board.white_pieces_list.getD i 0 = 0 ∧
        ¬cv.board.black_pieces_list.getD i 0 = 0) := by
  obtain ⟨hW6, hB6, hnb⟩ := cvreach_inv cv h
  exact game_state_char cv hW6 hB6 hnb

/-- Witness for C8: the characterization applied to the freshly
constructed game, whose reachability is the base constructor. -/
theorem C8_game_state_winner_witness :
    (get_game_state ChessVar.new = GameState.BLACK_WON ↔
      ∃ i < 6, ChessVar.new.board.white_pieces_list.getD i 0 = 0) ∧
    (get_game_state ChessVar.new = GameState.WHITE_WON ↔
      ∃ i < 6, ChessVar.new.board.black_pieces_list.getD i 0 = 0) ∧
    (get_game_state ChessVar.new = GameState.UNFINISHED ↔
      ∀ i < 6, ¬ChessVar.new.board.white_pieces_list.getD i 0 = 0 ∧
        ¬ChessVar.new.board.black_pieces_list.getD i 0 = 0) :=
  C8_game_state_winner ChessVar.new CVReach.init
